import Mathlib

/-!
A shallow embedding of the notion-generator template pipeline:
the input validator, template validator and rate-limit validator of
src/lib/validation.ts, the fixed-window rate limiters of
src/app/api/generate/route.ts and src/app/api/save/route.ts, and the
response-extraction tail of the generate endpoint (safeJSONParse and the
inline template-shape check).

Modelling conventions.  JS strings are modelled as Lean String and List
Char, with string length measured in UTF-16 code units (jsLength).  Regex
tests over the fixed denylist are modelled as decidable scans equivalent
to the JS semantics of the concrete patterns.  JSON.parse and a
serializer are modelled over an explicit Json value type; JSON numbers
are kept as exact decimal mantissa and exponent pairs, abstracting the
IEEE-754 rounding that JS applies (no claim here depends on float
rounding).  Date.now timestamps are Nat milliseconds.  The mutable Map
of the rate limiters is an association list threaded explicitly.
-/

/-- The set of characters removed by the JS String.prototype.trim and
matched by the regex class backslash-s. -/
def isJsWhitespace (c : Char) : Bool :=
  let n := c.toNat
  n == 9 || n == 10 || n == 11 || n == 12 || n == 13 || n == 32 ||
  n == 0xA0 || n == 0x1680 || (0x2000 ≤ n && n ≤ 0x200A) ||
  n == 0x2028 || n == 0x2029 || n == 0x202F || n == 0x205F ||
  n == 0x3000 || n == 0xFEFF

/-- JS regex word character class: ASCII letters, digits, underscore. -/
def isWordChar (c : Char) : Bool :=
  ('a' ≤ c && c ≤ 'z') || ('A' ≤ c && c ≤ 'Z') || ('0' ≤ c && c ≤ '9') || c == '_'

/-- JS regex line terminators, which the dot never matches. -/
def isLineTerminator (c : Char) : Bool :=
  let n := c.toNat
  n == 10 || n == 13 || n == 0x2028 || n == 0x2029

/-- ASCII decimal digit, characters 48 through 57. -/
def isDigitChar (c : Char) : Bool := 48 ≤ c.toNat && c.toNat ≤ 57

/-- UTF-16 width of one code point, as counted by JS string length. -/
def utf16Width (c : Char) : Nat := if c.toNat < 0x10000 then 1 else 2

/-- JS string length (UTF-16 code units) of a character list. -/
def jsLengthList (l : List Char) : Nat := (l.map utf16Width).sum

/-- JS string length of a String. -/
def jsLength (s : String) : Nat := jsLengthList s.data

/-- JS String.prototype.trim on a character list. -/
def jsTrimList (l : List Char) : List Char :=
  ((l.dropWhile isJsWhitespace).reverse.dropWhile isJsWhitespace).reverse

/-- JS String.prototype.trim. -/
def jsTrim (s : String) : String := ⟨jsTrimList s.data⟩

/-- Lower-case an ASCII letter; regexes without the u flag only
case-fold within ASCII against ASCII patterns. -/
def toLowerAscii (c : Char) : Char :=
  if 'A' ≤ c && c ≤ 'Z' then Char.ofNat (c.toNat + 32) else c

/-- Case-insensitive prefix test. -/
def startsWithCI : List Char → List Char → Bool
  | [], _ => true
  | _ :: _, [] => false
  | p :: ps, c :: cs => (toLowerAscii c == toLowerAscii p) && startsWithCI ps cs

/-- Does some suffix of the list satisfy the predicate?  This is the
regex existential: a match may begin at any position. -/
def anySuffix (p : List Char → Bool) : List Char → Bool
  | [] => p []
  | c :: rest => p (c :: rest) || anySuffix p (rest)

/-- Regex over-script-tag, case-insensitive substring search. -/
def hasScriptTag (l : List Char) : Bool :=
  anySuffix (fun s => startsWithCI "<script".data s) l

/-- Regex javascript-colon, case-insensitive substring search. -/
def hasJsUrl (l : List Char) : Bool :=
  anySuffix (fun s => startsWithCI "javascript:".data s) l

/-- One position of the inline-event-handler regex: letters o n, then
one or more word characters, optional whitespace, equals sign. -/
def eventHandlerAt (s : List Char) : Bool :=
  match s with
  | c1 :: c2 :: rest =>
    (toLowerAscii c1 == 'o') && (toLowerAscii c2 == 'n') &&
    !(rest.takeWhile isWordChar).isEmpty &&
    (((rest.dropWhile isWordChar).dropWhile isJsWhitespace).head? == some '=')
  | _ => false

/-- Regex on-word-equals, the inline event handler denylist pattern. -/
def hasEventHandler (l : List Char) : Bool := anySuffix eventHandlerAt l

/-- Regex eval-whitespace-paren. -/
def hasEvalCall (l : List Char) : Bool :=
  anySuffix (fun s =>
    startsWithCI "eval".data s &&
    (((s.drop 4).dropWhile isJsWhitespace).head? == some '(')) l

/-- Regex function-whitespace-paren. -/
def hasFunctionDef (l : List Char) : Bool :=
  anySuffix (fun s =>
    startsWithCI "function".data s &&
    (((s.drop 8).dropWhile isJsWhitespace).head? == some '(')) l

/-- Regex import followed by at least one whitespace character. -/
def hasImportStmt (l : List Char) : Bool :=
  anySuffix (fun s =>
    startsWithCI "import".data s &&
    (match (s.drop 6).head? with
     | some c => isJsWhitespace c
     | none => false)) l

/-- Regex require-whitespace-paren. -/
def hasRequireCall (l : List Char) : Bool :=
  anySuffix (fun s =>
    startsWithCI "require".data s &&
    (((s.drop 7).dropWhile isJsWhitespace).head? == some '(')) l

/-- One position of the repeated-character spam regex: any non
line-terminator character followed by ten copies of itself. -/
def repeatedCharAt (s : List Char) : Bool :=
  match s with
  | c :: rest =>
    !(isLineTerminator c) && (rest.take 10).length == 10 && (rest.take 10).all (· == c)
  | [] => false

/-- Regex dot-backreference-ten-or-more: eleven identical consecutive
characters. -/
def hasRepeatedChars (l : List Char) : Bool := anySuffix repeatedCharAt l

/-- The spam keyword list of the word-boundary regex. -/
def spamKeywords : List String := ["viagra", "casino", "poker", "lottery"]

/-- Word boundary after a keyword: end of input or a non-word char. -/
def boundaryAfter (t : List Char) : Bool :=
  match t.head? with
  | none => true
  | some c => !isWordChar c

/-- Scan for a spam keyword with word boundaries on both sides,
tracking the previous character for the left boundary. -/
def spamScan (prev : Option Char) (s : List Char) : Bool :=
  ((match prev with
    | none => true
    | some c => !isWordChar c) &&
   spamKeywords.any (fun w =>
     startsWithCI w.data s && boundaryAfter (s.drop w.data.length))) ||
  (match s with
   | [] => false
   | c :: rest => spamScan (some c) rest)

/-- Regex word-boundary spam keywords, case-insensitive. -/
def hasSpamWord (l : List Char) : Bool := spamScan none l

/-- The uniform validation result of src/lib/validation.ts. -/
structure ValidationResult where
  isValid : Bool
  errors : List String
  warnings : List String
deriving Repr, DecidableEq

/-- The dangerous-pattern denylist of validatePrompt, in source order,
pattern paired with its error message. -/
def dangerousPatterns : List ((List Char → Bool) × String) :=
  [(hasScriptTag, "Script tags are not allowed"),
   (hasJsUrl, "JavaScript URLs are not allowed"),
   (hasEventHandler, "Event handlers are not allowed"),
   (hasEvalCall, "Eval functions are not allowed"),
   (hasFunctionDef, "Function definitions are not allowed"),
   (hasImportStmt, "Import statements are not allowed"),
   (hasRequireCall, "Require statements are not allowed")]

/-- The spam-pattern list of validatePrompt, warnings only. -/
def spamPatterns : List ((List Char → Bool) × String) :=
  [(hasRepeatedChars, "Repeated characters detected"),
   (hasSpamWord, "Spam-like content detected")]

/-- validatePrompt of src/lib/validation.ts: the Input Validator. -/
def validatePrompt (prompt : String) : ValidationResult :=
  if prompt.data.isEmpty then
    { isValid := false
      errors := ["Prompt is required and must be a string"]
      warnings := [] }
  else
    let t := jsTrimList prompt.data
    let lenErrors :=
      (if jsLengthList t < 3 then ["Prompt must be at least 3 characters long"] else []) ++
      (if jsLengthList t > 1000 then ["Prompt must be less than 1000 characters"] else [])
    let lenWarnings :=
      if jsLengthList t > 500 then ["Long prompts may take longer to process"] else []
    let dangerErrors :=
      dangerousPatterns.filterMap (fun pm => if pm.1 t then some pm.2 else none)
    let spamWarnings :=
      spamPatterns.filterMap (fun pm => if pm.1 t then some pm.2 else none)
    let errors := lenErrors ++ dangerErrors
    { isValid := errors.length == 0
      errors := errors
      warnings := lenWarnings ++ spamWarnings }

/-- Decimal digit character of a value below ten. -/
def digitChar (n : Nat) : Char := Char.ofNat (48 + n)

/-- Fuel-driven digit expansion; structural so that concrete instances
reduce in the kernel. -/
def natDigitsAux : Nat → Nat → List Char
  | 0, _ => []
  | fuel + 1, n =>
    if n < 10 then [digitChar n]
    else natDigitsAux fuel (n / 10) ++ [digitChar (n % 10)]

/-- Decimal digits of a natural number, most significant first,
mirroring how JS prints integral numbers. -/
def natDigits (n : Nat) : List Char := natDigitsAux (n + 1) n

/-- Decimal rendering of a natural number. -/
def natToStr (n : Nat) : String := ⟨natDigits n⟩

/-- validateRateLimit of src/lib/validation.ts.  The 0.8 threshold of
the warning branch is modelled as the exact comparison five times the
count against four times the maximum. -/
def validateRateLimit (ip : String) (requestCount windowMs maxRequests : Nat) :
    ValidationResult :=
  let warnIp :=
    if ip.data.isEmpty || ip == "unknown" then
      ["Unable to determine client IP for rate limiting"]
    else []
  let errors :=
    if requestCount > maxRequests then
      ["Rate limit exceeded: " ++ natToStr requestCount ++ "/" ++ natToStr maxRequests ++
       " requests in " ++ natToStr windowMs ++ "ms"]
    else []
  let warnNear :=
    if requestCount > maxRequests then []
    else if 5 * requestCount > 4 * maxRequests then
      ["Approaching rate limit: " ++ natToStr requestCount ++ "/" ++ natToStr maxRequests ++
       " requests"]
    else []
  { isValid := errors.length == 0
    errors := errors
    warnings := warnIp ++ warnNear }

/-- Parsed JSON values, the shape JSON.parse returns.  Numbers are the
exact decimal mantissa times ten to the exponent; objects are key value
pairs in insertion order with distinct keys when produced by the
parser. -/
inductive Json where
  | null
  | bool (b : Bool)
  | num (mantissa : Int) (exp10 : Int)
  | str (s : String)
  | arr (elems : List Json)
  | obj (fields : List (String × Json))
deriving Repr

/-- First binding of a key in an object field list. -/
def findField (fields : List (String × Json)) (k : String) : Option Json :=
  match fields with
  | [] => none
  | (k2, v) :: rest => if k2 == k then some v else findField rest k

/-- JS property access modelled on Json values: undefined is none.
Access on a non-object value yields undefined for the names used
here. -/
def getField (j : Json) (k : String) : Option Json :=
  match j with
  | Json.obj fs => findField fs k
  | _ => none

/-- JS truthiness of a possibly-undefined Json value. -/
def truthy (v : Option Json) : Bool :=
  match v with
  | none => false
  | some Json.null => false
  | some (Json.bool b) => b
  | some (Json.num m _) => m != 0
  | some (Json.str s) => !s.data.isEmpty
  | some (Json.arr _) => true
  | some (Json.obj _) => true

/-- Array.isArray on a possibly-undefined Json value. -/
def isArrayJ (v : Option Json) : Bool :=
  match v with
  | some (Json.arr _) => true
  | _ => false

/-- typeof v is object and v is truthy: only objects and arrays pass
the template and element guards. -/
def isObjectLike (j : Json) : Bool :=
  match j with
  | Json.obj _ => true
  | Json.arr _ => true
  | _ => false

/-- The fixed enumeration of recognized property types, in source
order. -/
def validPropertyTypes : List String :=
  ["text", "select", "multi-select", "number", "date", "checkbox", "url",
   "email", "phone", "formula", "relation", "rollup", "created_time",
   "created_by", "last_edited_time", "last_edited_by", "files", "status"]

/-- The joined enumeration used in the type error message. -/
def validPropertyTypesJoined : String := String.intercalate ", " validPropertyTypes

/-- Errors and warnings of the title checks. -/
def titleIssues (template : Json) : List String × List String :=
  match getField template "title" with
  | some (Json.str t) =>
    if t.data.isEmpty then (["Title is required and must be a string"], [])
    else if (jsTrimList t.data).isEmpty then (["Title cannot be empty"], [])
    else if jsLength t > 200 then ([], ["Title is quite long, consider shortening it"])
    else ([], [])
  | _ => (["Title is required and must be a string"], [])

/-- Errors and warnings of one sections element, one-based in the
messages. -/
def sectionIssues (idx : Nat) (s : Json) : List String × List String :=
  if !(isObjectLike s) then
    (["Section " ++ natToStr (idx + 1) ++ " must be an object"], [])
  else
    let nameErrs :=
      match getField s "name" with
      | some (Json.str nm) =>
        if nm.data.isEmpty then
          ["Section " ++ natToStr (idx + 1) ++ ": name is required and must be a string"]
        else if (jsTrimList nm.data).isEmpty then
          ["Section " ++ natToStr (idx + 1) ++ ": name cannot be empty"]
        else []
      | _ => ["Section " ++ natToStr (idx + 1) ++ ": name is required and must be a string"]
    let descIssues :=
      match getField s "description" with
      | some (Json.str d) =>
        if d.data.isEmpty then
          (["Section " ++ natToStr (idx + 1) ++ ": description is required and must be a string"], [])
        else if (jsTrimList d.data).isEmpty then
          (["Section " ++ natToStr (idx + 1) ++ ": description cannot be empty"], [])
        else if jsLength d > 500 then
          ([], ["Section " ++ natToStr (idx + 1) ++ ": description is quite long"])
        else ([], [])
      | _ => (["Section " ++ natToStr (idx + 1) ++ ": description is required and must be a string"], [])
    (nameErrs ++ descIssues.1, descIssues.2)

/-- Errors and warnings of the sections block. -/
def sectionsBlock (template : Json) : List String × List String :=
  match getField template "sections" with
  | some (Json.arr l) =>
    let countWarns :=
      if l.isEmpty then ["No sections defined"]
      else if l.length > 20 then ["Many sections defined, consider simplifying"]
      else []
    let per := l.enum.map (fun p => sectionIssues p.1 p.2)
    ((per.map Prod.fst).flatten, countWarns ++ (per.map Prod.snd).flatten)
  | _ => (["Sections must be an array"], [])

/-- Errors and warnings of one properties element. -/
def propertyIssues (idx : Nat) (p : Json) : List String × List String :=
  if !(isObjectLike p) then
    (["Property " ++ natToStr (idx + 1) ++ " must be an object"], [])
  else
    let nameErrs :=
      match getField p "name" with
      | some (Json.str nm) =>
        if nm.data.isEmpty then
          ["Property " ++ natToStr (idx + 1) ++ ": name is required and must be a string"]
        else if (jsTrimList nm.data).isEmpty then
          ["Property " ++ natToStr (idx + 1) ++ ": name cannot be empty"]
        else []
      | _ => ["Property " ++ natToStr (idx + 1) ++ ": name is required and must be a string"]
    let typeErrs :=
      match getField p "type" with
      | some (Json.str ty) =>
        if ty.data.isEmpty then
          ["Property " ++ natToStr (idx + 1) ++ ": type is required and must be a string"]
        else if !(validPropertyTypes.contains ty) then
          ["Property " ++ natToStr (idx + 1) ++ ": type must be one of: " ++ validPropertyTypesJoined]
        else []
      | _ => ["Property " ++ natToStr (idx + 1) ++ ": type is required and must be a string"]
    let descIssues :=
      match getField p "description" with
      | some (Json.str d) =>
        if d.data.isEmpty then
          (["Property " ++ natToStr (idx + 1) ++ ": description is required and must be a string"], [])
        else if (jsTrimList d.data).isEmpty then
          (["Property " ++ natToStr (idx + 1) ++ ": description cannot be empty"], [])
        else if jsLength d > 300 then
          ([], ["Property " ++ natToStr (idx + 1) ++ ": description is quite long"])
        else ([], [])
      | _ => (["Property " ++ natToStr (idx + 1) ++ ": description is required and must be a string"], [])
    (nameErrs ++ typeErrs ++ descIssues.1, descIssues.2)

/-- Errors and warnings of the properties block. -/
def propertiesBlock (template : Json) : List String × List String :=
  match getField template "properties" with
  | some (Json.arr l) =>
    let countWarns :=
      if l.isEmpty then ["No properties defined"]
      else if l.length > 50 then ["Many properties defined, consider simplifying"]
      else []
    let per := l.enum.map (fun p => propertyIssues p.1 p.2)
    ((per.map Prod.fst).flatten, countWarns ++ (per.map Prod.snd).flatten)
  | _ => (["Properties must be an array"], [])

/-- Errors and warnings of the optional notes field. -/
def notesIssues (template : Json) : List String × List String :=
  match getField template "notes" with
  | none => ([], [])
  | some (Json.str s) => if jsLength s > 1000 then ([], ["Notes are quite long"]) else ([], [])
  | some _ => (["Notes must be a string if provided"], [])

/-- validateTemplateStructure of src/lib/validation.ts: the Template
Validator.  Errors and warnings accumulate in source push order. -/
def validateTemplateStructure (template : Json) : ValidationResult :=
  if !(isObjectLike template) then
    { isValid := false, errors := ["Template must be an object"], warnings := [] }
  else
    let ti := titleIssues template
    let se := sectionsBlock template
    let pr := propertiesBlock template
    let no := notesIssues template
    let errors := ti.1 ++ se.1 ++ pr.1 ++ no.1
    { isValid := errors.length == 0
      errors := errors
      warnings := ti.2 ++ se.2 ++ pr.2 ++ no.2 }

/-- One rate-limit window entry: request count and window reset time in
milliseconds. -/
structure RateEntry where
  count : Nat
  resetTime : Nat
deriving Repr, DecidableEq

/-- The per-endpoint Map from client identifier to window entry. -/
abbrev RateLimitMap := List (String × RateEntry)

/-- Map.get. -/
def mapGet (m : RateLimitMap) (ip : String) : Option RateEntry :=
  match m with
  | [] => none
  | (k, v) :: rest => if k == ip then some v else mapGet rest ip

/-- Map.set: update in place when the key exists, append otherwise. -/
def mapSet (m : RateLimitMap) (ip : String) (e : RateEntry) : RateLimitMap :=
  match m with
  | [] => [(ip, e)]
  | (k, v) :: rest => if k == ip then (k, e) :: rest else (k, v) :: mapSet rest ip e

def RATE_LIMIT_WINDOW : Nat := 60 * 1000

def RATE_LIMIT_MAX_REQUESTS : Nat := 10

def SAVE_RATE_LIMIT_WINDOW : Nat := 60 * 1000

def SAVE_RATE_LIMIT_MAX_REQUESTS : Nat := 5

/-- The fixed-window limiter step shared verbatim by checkRateLimit of
the generate route and checkSaveRateLimit of the save route, modulo the
two constants.  Returns the allowed flag and the updated map. -/
def checkRateLimitWith (maxRequests windowMs now : Nat) (ip : String)
    (m : RateLimitMap) : Bool × RateLimitMap :=
  match mapGet m ip with
  | none => (true, mapSet m ip ⟨1, now + windowMs⟩)
  | some userLimit =>
    if now > userLimit.resetTime then
      (true, mapSet m ip ⟨1, now + windowMs⟩)
    else if userLimit.count ≥ maxRequests then
      (false, m)
    else
      (true, mapSet m ip ⟨userLimit.count + 1, userLimit.resetTime⟩)

/-- checkRateLimit of src/app/api/generate/route.ts. -/
def checkRateLimit (now : Nat) (ip : String) (m : RateLimitMap) : Bool × RateLimitMap :=
  checkRateLimitWith RATE_LIMIT_MAX_REQUESTS RATE_LIMIT_WINDOW now ip m

/-- checkSaveRateLimit of src/app/api/save/route.ts. -/
def checkSaveRateLimit (now : Nat) (ip : String) (m : RateLimitMap) : Bool × RateLimitMap :=
  checkRateLimitWith SAVE_RATE_LIMIT_MAX_REQUESTS SAVE_RATE_LIMIT_WINDOW now ip m

/-- A sequence of generate-route rate-limit calls from one client at the
given times; returns the allowed flags in order and the final map. -/
def runCalls (ts : List Nat) (ip : String) (m : RateLimitMap) : List Bool × RateLimitMap :=
  match ts with
  | [] => ([], m)
  | t :: rest =>
    let r := checkRateLimit t ip m
    let r2 := runCalls rest ip r.2
    (r.1 :: r2.1, r2.2)

/-- Start-of-script-element test at one position: the literal
open-script characters, case-insensitive, followed by a word boundary
(a next character that is not a word character). -/
def scriptOpenAt (l : List Char) : Bool :=
  startsWithCI "<script".data l &&
  (match (l.drop 7).head? with
   | some c => !isWordChar c
   | none => false)

/-- Suffix after the first case-insensitive close-script literal, when
one occurs. -/
def splitAtCloseScript : List Char → Option (List Char)
  | [] => none
  | c :: rest =>
    if startsWithCI "</script>".data (c :: rest) then some ((c :: rest).drop 9)
    else splitAtCloseScript rest

/-- Fuel-driven scan of the global script-element replace: at each
position, when an open-script token with a word boundary begins there
and a close-script literal occurs later, the whole element is dropped
and scanning resumes after it; otherwise the character is kept.  The
fuel is an upper bound on positions scanned. -/
def stripScriptsAux : Nat → List Char → List Char
  | 0, l => l
  | _, [] => []
  | fuel + 1, c :: rest =>
    if scriptOpenAt (c :: rest) then
      match splitAtCloseScript ((c :: rest).drop 7) with
      | some after => stripScriptsAux fuel after
      | none => c :: stripScriptsAux fuel rest
    else c :: stripScriptsAux fuel rest

/-- The script-element removal applied by safeJSONParse before brace
matching. -/
def stripScripts (l : List Char) : List Char := stripScriptsAux l.length l

/-- The greedy outer-brace span of the regex open-brace anything
close-brace: from the first open brace to the last close brace, when
the close brace follows the open one. -/
def bracesSpan (l : List Char) : Option (List Char) :=
  match l.dropWhile (· != '{') with
  | [] => none
  | c :: rest =>
    match (c :: rest).reverse.dropWhile (· != '}') with
    | [] => none
    | r => some r.reverse

/-- Does the text hold an open brace with a close brace somewhere after
it?  Exactly when the outer-brace regex matches. -/
def hasBracePair (l : List Char) : Bool :=
  match l.dropWhile (· != '{') with
  | [] => false
  | _ :: rest => rest.contains '}'

/-- JSON whitespace accepted between tokens by JSON.parse. -/
def isJsonWs (c : Char) : Bool :=
  c == ' ' || c == '\t' || c == '\n' || c == '\r'

/-- Skip JSON whitespace. -/
def skipJsonWs (l : List Char) : List Char := l.dropWhile isJsonWs

/-- Hexadecimal digit value. -/
def hexDigitVal (c : Char) : Option Nat :=
  if '0' ≤ c && c ≤ '9' then some (c.toNat - 48)
  else if 'a' ≤ c && c ≤ 'f' then some (c.toNat - 87)
  else if 'A' ≤ c && c ≤ 'F' then some (c.toNat - 55)
  else none

/-- JSON string body after the opening quote: content and the remainder
after the closing quote.  Raw control characters are rejected; the
eight named escapes and the four-hex-digit escape are decoded. -/
def parseStringBody : List Char → Option (List Char × List Char)
  | [] => none
  | c :: rest =>
    if c == '"' then some ([], rest)
    else if c == '\\' then
      match rest with
      | [] => none
      | e :: r =>
        if e == '"' then (parseStringBody r).map (fun p => ('"' :: p.1, p.2))
        else if e == '\\' then (parseStringBody r).map (fun p => ('\\' :: p.1, p.2))
        else if e == '/' then (parseStringBody r).map (fun p => ('/' :: p.1, p.2))
        else if e == 'b' then (parseStringBody r).map (fun p => (Char.ofNat 8 :: p.1, p.2))
        else if e == 'f' then (parseStringBody r).map (fun p => (Char.ofNat 12 :: p.1, p.2))
        else if e == 'n' then (parseStringBody r).map (fun p => ('\n' :: p.1, p.2))
        else if e == 'r' then (parseStringBody r).map (fun p => (Char.ofNat 13 :: p.1, p.2))
        else if e == 't' then (parseStringBody r).map (fun p => ('\t' :: p.1, p.2))
        else if e == 'u' then
          match r with
          | h1 :: h2 :: h3 :: h4 :: r2 =>
            match hexDigitVal h1, hexDigitVal h2, hexDigitVal h3, hexDigitVal h4 with
            | some a, some b2, some c2, some d =>
              (parseStringBody r2).map
                (fun p => (Char.ofNat (((a * 16 + b2) * 16 + c2) * 16 + d) :: p.1, p.2))
            | _, _, _, _ => none
          | _ => none
        else none
    else if c.toNat < 0x20 then none
    else (parseStringBody rest).map (fun p => (c :: p.1, p.2))

/-- Value of a digit run, most significant first. -/
def digitsToNat (ds : List Char) : Nat :=
  ds.foldl (fun acc c => 10 * acc + (c.toNat - 48)) 0

/-- Optional JSON fraction part: its digits and the remainder. -/
def parseFrac (l : List Char) : Option (List Char × List Char) :=
  match l with
  | '.' :: r =>
    let ds := r.takeWhile isDigitChar
    if ds.isEmpty then none else some (ds, r.dropWhile isDigitChar)
  | _ => some ([], l)

/-- Optional JSON exponent part: its signed value and the remainder. -/
def parseExp (l : List Char) : Option (Int × List Char) :=
  match l with
  | c :: r =>
    if c == 'e' || c == 'E' then
      let sr : Int × List Char :=
        match r with
        | c2 :: rr =>
          if c2 == '+' then (1, rr)
          else if c2 == '-' then (-1, rr)
          else (1, c2 :: rr)
        | [] => (1, [])
      let ds := sr.2.takeWhile isDigitChar
      if ds.isEmpty then none
      else some (sr.1 * (digitsToNat ds : Int), sr.2.dropWhile isDigitChar)
    else some (0, l)
  | [] => some (0, [])

/-- JSON number token: mantissa and decimal exponent, plus remainder.
The grammar is the JSON one: optional minus, an integer part without
leading zeros, optional fraction, optional exponent. -/
def parseNumberToken (l : List Char) : Option ((Int × Int) × List Char) :=
  let sl : Int × List Char :=
    match l with
    | c :: r => if c == '-' then (-1, r) else (1, c :: r)
    | [] => (1, [])
  let intDigits := sl.2.takeWhile isDigitChar
  let l2 := sl.2.dropWhile isDigitChar
  if intDigits.isEmpty then none
  else if intDigits.head? == some '0' && intDigits.length != 1 then none
  else
    match parseFrac l2 with
    | none => none
    | some (fracDigits, l3) =>
      match parseExp l3 with
      | none => none
      | some (expVal, l4) =>
        some ((sl.1 * (digitsToNat (intDigits ++ fracDigits) : Int),
               expVal - (fracDigits.length : Int)), l4)

/-- Object update with JS semantics: a repeated key keeps its first
position and takes the last value. -/
def insertField (fs : List (String × Json)) (k : String) (v : Json) :
    List (String × Json) :=
  match fs with
  | [] => [(k, v)]
  | (k2, v2) :: rest => if k2 == k then (k2, v) :: rest else (k2, v2) :: insertField rest k v

mutual

/-- One JSON value with leading whitespace, returning the remainder;
fuel bounds the nesting of recursive calls. -/
def parseValue : Nat → List Char → Option (Json × List Char)
  | 0, _ => none
  | fuel + 1, l =>
    match skipJsonWs l with
    | [] => none
    | c :: rest =>
      if c == '{' then
        match skipJsonWs rest with
        | '}' :: r2 => some (Json.obj [], r2)
        | _ =>
          match parseMembers fuel [] rest with
          | some (fs, r2) => some (Json.obj fs, r2)
          | none => none
      else if c == '[' then
        match skipJsonWs rest with
        | ']' :: r2 => some (Json.arr [], r2)
        | _ =>
          match parseElems fuel [] rest with
          | some (es, r2) => some (Json.arr es, r2)
          | none => none
      else if c == '"' then
        match parseStringBody rest with
        | some (s, r2) => some (Json.str ⟨s⟩, r2)
        | none => none
      else if c == 't' then
        if rest.take 3 == "rue".data then some (Json.bool true, rest.drop 3) else none
      else if c == 'f' then
        if rest.take 4 == "alse".data then some (Json.bool false, rest.drop 4) else none
      else if c == 'n' then
        if rest.take 3 == "ull".data then some (Json.null, rest.drop 3) else none
      else
        match parseNumberToken (c :: rest) with
        | some ((m, e), r2) => some (Json.num m e, r2)
        | none => none

/-- One or more members of an object, after the open brace. -/
def parseMembers : Nat → List (String × Json) → List Char →
    Option (List (String × Json) × List Char)
  | 0, _, _ => none
  | fuel + 1, acc, l =>
    match skipJsonWs l with
    | '"' :: rest =>
      match parseStringBody rest with
      | some (k, r2) =>
        match skipJsonWs r2 with
        | ':' :: r3 =>
          match parseValue fuel r3 with
          | some (v, r4) =>
            match skipJsonWs r4 with
            | ',' :: r5 => parseMembers fuel (insertField acc ⟨k⟩ v) r5
            | '}' :: r5 => some (insertField acc ⟨k⟩ v, r5)
            | _ => none
          | none => none
        | _ => none
      | none => none
    | _ => none

/-- One or more elements of an array, after the open bracket. -/
def parseElems : Nat → List Json → List Char → Option (List Json × List Char)
  | 0, _, _ => none
  | fuel + 1, acc, l =>
    match parseValue fuel l with
    | some (v, r) =>
      match skipJsonWs r with
      | ',' :: r2 => parseElems fuel (acc ++ [v]) r2
      | ']' :: r2 => some (acc ++ [v], r2)
      | _ => none
    | none => none

end

/-- JSON.parse on a whole character list: one value, with only
whitespace allowed around it. -/
def parseJsonText (l : List Char) : Option Json :=
  match parseValue (l.length + 1) l with
  | some (v, rest) => if (skipJsonWs rest).isEmpty then some v else none
  | none => none

/-- The deterministic fallback Template of safeJSONParse. -/
def fallbackTemplate : Json :=
  Json.obj [("title", Json.str "Template Generation Error"),
            ("sections", Json.arr []),
            ("properties", Json.arr []),
            ("notes", Json.str "Failed to parse AI response. Please try again.")]

/-- The extraction attempt of safeJSONParse: strip script elements,
take the greedy outer-brace span, parse it as JSON. -/
def extractJson (l : List Char) : Option Json :=
  match bracesSpan (stripScripts l) with
  | some span => parseJsonText span
  | none => none

/-- safeJSONParse of src/app/api/generate/route.ts: the Response
Extractor.  Any failure inside the attempt lands in the catch branch,
producing the fallback Template. -/
def safeJSONParse (text : String) : Json :=
  match extractJson text.data with
  | some v => v
  | none => fallbackTemplate

/-- A JSON response of the generate endpoint: HTTP status and the body
fields. -/
structure ApiResponse where
  status : Nat
  ok : Bool
  error : Option String
  template : Option Json
deriving Repr

/-- The inline template-shape check of the generate POST handler:
truthy title, array sections, array properties. -/
def templateShapeOk (t : Json) : Bool :=
  truthy (getField t "title") && isArrayJ (getField t "sections") &&
  isArrayJ (getField t "properties")

/-- The response computed from a candidate template by the generate
POST handler. -/
def respondWithTemplate (t : Json) : ApiResponse :=
  if !(templateShapeOk t) then
    { status := 500, ok := false
      error := some "Invalid template generated. Please try again."
      template := none }
  else
    { status := 200, ok := true, error := none, template := some t }

/-- The tail of the generate POST handler from the upstream reply text:
safeJSONParse, the inline shape check, and the response. -/
def routeFinish (generatedText : String) : ApiResponse :=
  respondWithTemplate (safeJSONParse generatedText)

/-- Signed decimal rendering of an integer. -/
def intDec (i : Int) : List Char :=
  if i < 0 then '-' :: natDigits i.natAbs else natDigits i.natAbs

/-- Lower-case hexadecimal digit character. -/
def hexDigitChar (n : Nat) : Char :=
  if n < 10 then Char.ofNat (48 + n) else Char.ofNat (87 + n)

/-- JSON string escaping of one character: quote and backslash get a
backslash escape, control characters a four-hex-digit escape, all
others pass through. -/
def escapeChar (c : Char) : List Char :=
  if c == '"' then ['\\', '"']
  else if c == '\\' then ['\\', '\\']
  else if c.toNat < 0x20 then
    ['\\', 'u', '0', '0', hexDigitChar (c.toNat / 16), hexDigitChar (c.toNat % 16)]
  else [c]

/-- JSON string escaping of a character list. -/
def escapeStr (s : List Char) : List Char := (s.map escapeChar).flatten

mutual

/-- JSON serialization of a value, compact form.  Numbers are emitted
as mantissa, letter e, exponent, which re-parses to the same exact
decimal; the shortest-double formatting of JS is abstracted away. -/
def stringifyJson : Json → List Char
  | Json.null => "null".data
  | Json.bool true => "true".data
  | Json.bool false => "false".data
  | Json.num m e => intDec m ++ ('e' :: intDec e)
  | Json.str s => ('"' :: escapeStr s.data) ++ ['"']
  | Json.arr es => ('[' :: stringifyElems es) ++ [']']
  | Json.obj fs => ('{' :: stringifyMembers fs) ++ ['}']

/-- Comma-joined serialization of array elements. -/
def stringifyElems : List Json → List Char
  | [] => []
  | [e] => stringifyJson e
  | e :: e2 :: rest => stringifyJson e ++ (',' :: stringifyElems (e2 :: rest))

/-- Comma-joined serialization of object members. -/
def stringifyMembers : List (String × Json) → List Char
  | [] => []
  | [(k, v)] => ('"' :: escapeStr k.data) ++ ('"' :: ':' :: stringifyJson v)
  | (k, v) :: p :: rest =>
    (('"' :: escapeStr k.data) ++ ('"' :: ':' :: stringifyJson v)) ++
    (',' :: stringifyMembers (p :: rest))

end

/-- Keys of an object field list are pairwise distinct. -/
def nodupKeysB : List (String × Json) → Bool
  | [] => true
  | (k, _) :: rest => !(rest.any (fun p => p.1 == k)) && nodupKeysB rest

mutual

/-- A Json value is representable as a JS runtime value: every object
has pairwise distinct keys.  Values produced by the parser satisfy
this by construction. -/
def jsonWF : Json → Bool
  | Json.null => true
  | Json.bool _ => true
  | Json.num _ _ => true
  | Json.str _ => true
  | Json.arr es => jsonWFElems es
  | Json.obj fs => nodupKeysB fs && jsonWFMembers fs

/-- jsonWF on every array element. -/
def jsonWFElems : List Json → Bool
  | [] => true
  | e :: rest => jsonWF e && jsonWFElems rest

/-- jsonWF on every member value. -/
def jsonWFMembers : List (String × Json) → Bool
  | [] => true
  | (_, v) :: rest => jsonWF v && jsonWFMembers rest

end

mutual

/-- Fuel bound for parsing a serialized value. -/
def jsonSize : Json → Nat
  | Json.null => 1
  | Json.bool _ => 1
  | Json.num _ _ => 1
  | Json.str _ => 1
  | Json.arr es => 1 + elemsSize es
  | Json.obj fs => 1 + membersSize fs

/-- Fuel bound for parsing serialized array elements. -/
def elemsSize : List Json → Nat
  | [] => 0
  | e :: rest => 1 + jsonSize e + elemsSize rest

/-- Fuel bound for parsing serialized object members. -/
def membersSize : List (String × Json) → Nat
  | [] => 0
  | (_, v) :: rest => 1 + jsonSize v + membersSize rest

end

/-- The remainder after a serialized number must not begin with a
digit, or the digit run would extend into it. -/
def noDigitHead (l : List Char) : Prop :=
  ∀ c, l.head? = some c → isDigitChar c = false

/-- The remainder after a serialized value inside a composite starts
with a separator or closer, or is empty. -/
def sepHead (l : List Char) : Prop :=
  ∀ c, l.head? = some c → c = ',' ∨ c = '}' ∨ c = ']'

/-! Helper lemmas. -/

theorem mapGet_mapSet_self (m : RateLimitMap) (ip : String) (e : RateEntry) :
    mapGet (mapSet m ip e) ip = some e := by
  induction m with
  | nil => simp [mapSet, mapGet]
  | cons p rest ih =>
    obtain ⟨k, v⟩ := p
    cases hk : k == ip <;> simp [mapSet, mapGet, hk, ih]

theorem runCalls_window (ts : List Nat) (ip : String) :
    ∀ (m : RateLimitMap) (k r : Nat),
      mapGet m ip = some ⟨k, r⟩ → (∀ t ∈ ts, t ≤ r) → k + ts.length = 11 → k ≤ 10 →
      (runCalls ts ip m).1 = List.replicate (10 - k) true ++ [false] := by
  induction ts with
  | nil => intro m k r _ _ hlen hk; simp at hlen; omega
  | cons t rest ih =>
    intro m k r hget hts hlen hk
    by_cases hmax : 10 ≤ k
    · have hk10 : k = 10 := by omega
      have hrest : rest = [] := by
        have : rest.length = 0 := by simp at hlen; omega
        exact List.length_eq_zero.mp this
      subst hk10; subst hrest
      have hle : ¬ t > r := by simpa using hts t (by simp)
      simp [runCalls, checkRateLimit, checkRateLimitWith, hget, hle,
        RATE_LIMIT_MAX_REQUESTS]
    · have hle : ¬ t > r := by simpa using hts t (by simp)
      have hstep : checkRateLimit t ip m = (true, mapSet m ip ⟨k + 1, r⟩) := by
        simp [checkRateLimit, checkRateLimitWith, hget, hle, RATE_LIMIT_MAX_REQUESTS]
        omega
      have hrec := ih (mapSet m ip ⟨k + 1, r⟩) (k + 1) r (mapGet_mapSet_self m ip _)
        (fun x hx => hts x (by simp [hx])) (by simp at hlen ⊢; omega) (by omega)
      have hrepl : List.replicate (10 - k) true = true :: List.replicate (10 - (k + 1)) true := by
        have : 10 - k = (10 - (k + 1)) + 1 := by omega
        simp [this, List.replicate_succ]
      simp [runCalls, hstep, hrec, hrepl]

/-- C8: every modelled validator that returns a ValidationResult has
isValid equal to its errors list being empty; warnings never figure in
validity. -/
theorem C8_isValid_iff_no_errors :
    (∀ p : String,
      (validatePrompt p).isValid = ((validatePrompt p).errors.length == 0)) ∧
    (∀ t : Json,
      (validateTemplateStructure t).isValid =
        ((validateTemplateStructure t).errors.length == 0)) ∧
    (∀ (ip : String) (requestCount windowMs maxRequests : Nat),
      (validateRateLimit ip requestCount windowMs maxRequests).isValid =
        ((validateRateLimit ip requestCount windowMs maxRequests).errors.length == 0)) := by
  refine ⟨fun p => ?_, fun t => ?_, fun ip rc w mx => ?_⟩
  · unfold validatePrompt
    split <;> rfl
  · unfold validateTemplateStructure
    split <;> rfl
  · rfl

/-- C10: a denied rate-limit call leaves the stored window entry and
the whole map unchanged, in both the generate limiter and the stricter
save limiter. -/
theorem C10_denied_call_preserves_state :
    ∀ (m : RateLimitMap) (ip : String) (now : Nat) (e : RateEntry),
      mapGet m ip = some e → ¬ now > e.resetTime →
      (e.count ≥ RATE_LIMIT_MAX_REQUESTS → checkRateLimit now ip m = (false, m)) ∧
      (e.count ≥ SAVE_RATE_LIMIT_MAX_REQUESTS → checkSaveRateLimit now ip m = (false, m)) := by
  intro m ip now e hget hnow
  constructor <;> intro hcount <;>
    simp [checkRateLimit, checkSaveRateLimit, checkRateLimitWith, hget, hnow, hcount]

theorem C10_denied_call_preserves_state_witness :
    checkRateLimit 50 "4.5.6.7" [("4.5.6.7", ⟨10, 1000⟩)] =
      (false, [("4.5.6.7", ⟨10, 1000⟩)]) ∧
    checkSaveRateLimit 50 "4.5.6.7" [("4.5.6.7", ⟨10, 1000⟩)] =
      (false, [("4.5.6.7", ⟨10, 1000⟩)]) := by
  have h := C10_denied_call_preserves_state [("4.5.6.7", ⟨10, 1000⟩)] "4.5.6.7" 50
    ⟨10, 1000⟩ (by decide) (by decide)
  exact ⟨h.1 (by decide), h.2 (by decide)⟩

/-- C7: with the window of sixty thousand milliseconds and maximum ten,
eleven calls of one client inside one window give ten allowed calls and
an eleventh denied one; and any call made strictly after the stored
reset time is allowed and overwrites the entry with count one and a new
window. -/
theorem C7_fixed_window_behavior :
    (∀ (t0 : Nat) (rest : List Nat) (ip : String) (m0 : RateLimitMap),
      mapGet m0 ip = none → rest.length = 10 →
      (∀ t ∈ rest, t ≤ t0 + RATE_LIMIT_WINDOW) →
      (runCalls (t0 :: rest) ip m0).1 = List.replicate 10 true ++ [false]) ∧
    (∀ (m : RateLimitMap) (ip : String) (now : Nat) (e : RateEntry),
      mapGet m ip = some e → now > e.resetTime →
      checkRateLimit now ip m = (true, mapSet m ip ⟨1, now + RATE_LIMIT_WINDOW⟩)) := by
  constructor
  · intro t0 rest ip m0 hget hlen hts
    have hfirst : checkRateLimit t0 ip m0 =
        (true, mapSet m0 ip ⟨1, t0 + RATE_LIMIT_WINDOW⟩) := by
      simp [checkRateLimit, checkRateLimitWith, hget]
    have hrec := runCalls_window rest ip (mapSet m0 ip ⟨1, t0 + RATE_LIMIT_WINDOW⟩) 1
      (t0 + RATE_LIMIT_WINDOW) (mapGet_mapSet_self m0 ip _) hts (by omega) (by omega)
    have hrepl : List.replicate 10 true = true :: List.replicate 9 true := by
      simp [List.replicate_succ]
    simp [runCalls, hfirst, hrec, hrepl]
  · intro m ip now e hget hnow
    simp [checkRateLimit, checkRateLimitWith, hget, hnow]

theorem C7_fixed_window_behavior_witness :
    (runCalls [5, 10, 15, 20, 25, 30, 35, 40, 45, 50, 55] "9.9.9.9" []).1 =
      List.replicate 10 true ++ [false] ∧
    checkRateLimit 70000 "9.9.9.9" [("9.9.9.9", ⟨3, 60005⟩)] =
      (true, [("9.9.9.9", ⟨1, 130000⟩)]) := by
  have h1 := C7_fixed_window_behavior.1 5 [10, 15, 20, 25, 30, 35, 40, 45, 50, 55]
    "9.9.9.9" [] (by decide) (by decide) (by decide)
  have h2 := C7_fixed_window_behavior.2 [("9.9.9.9", ⟨3, 60005⟩)] "9.9.9.9" 70000
    ⟨3, 60005⟩ (by decide) (by decide)
  exact ⟨h1, by simpa using h2⟩

theorem mem_filterMap_iflist (l : List ((List Char → Bool) × String)) (t : List Char)
    (x : String)
    (hx : x ∈ l.filterMap (fun pm => if pm.1 t then some pm.2 else none)) :
    x ∈ l.map Prod.snd := by
  rcases List.mem_filterMap.mp hx with ⟨pm, hpm, hf⟩
  by_cases h : pm.1 t = true
  · rw [if_pos h] at hf
    obtain rfl := Option.some.inj hf
    exact List.mem_map_of_mem _ hpm
  · rw [if_neg h] at hf
    cases hf

theorem count_zero_of_not_mem_snd (t : List Char) (msg : String)
    (l : List ((List Char → Bool) × String)) (hl : msg ∉ l.map Prod.snd) :
    (l.filterMap (fun pm => if pm.1 t then some pm.2 else none)).count msg = 0 := by
  rw [List.count_eq_zero]
  intro hx
  exact hl (mem_filterMap_iflist l t msg hx)

theorem count_filterMap_if (t : List Char) :
    ∀ (l : List ((List Char → Bool) × String)) (pat : List Char → Bool) (msg : String),
      (pat, msg) ∈ l → (l.map Prod.snd).Nodup →
      (l.filterMap (fun pm => if pm.1 t then some pm.2 else none)).count msg =
        if pat t = true then 1 else 0 := by
  intro l
  induction l with
  | nil => intro pat msg h; cases h
  | cons hd rest ih =>
    intro pat msg hmem hnodup
    have hnodup' : (List.map Prod.snd (hd :: rest)).Nodup := hnodup
    rw [List.map_cons, List.nodup_cons] at hnodup'
    rcases List.mem_cons.mp hmem with heq | hmem2
    · have h1 : hd.1 = pat := by rw [← heq]
      have h2 : hd.2 = msg := by rw [← heq]
      have hnotin : msg ∉ rest.map Prod.snd := h2 ▸ hnodup'.1
      rw [List.filterMap_cons]
      by_cases hpt : pat t = true
      · simp only [h1, h2, hpt, if_true]
        simp [List.count_cons, count_zero_of_not_mem_snd t msg rest hnotin]
      · simp only [h1, h2, hpt, if_false]
        simp [count_zero_of_not_mem_snd t msg rest hnotin, hpt]
    · have hsnd : hd.2 ≠ msg := by
        intro hcontra
        have : msg ∈ rest.map Prod.snd := by
          have := List.mem_map_of_mem Prod.snd hmem2
          simpa using this
        exact absurd (hcontra ▸ this) hnodup'.1
      have hrec := ih pat msg hmem2 hnodup'.2
      rw [List.filterMap_cons]
      by_cases hf : hd.1 t = true
      · simp only [hf, if_true]
        simp [List.count_cons, hsnd, hrec]
      · simp only [hf, if_false]
        exact hrec

theorem validatePrompt_errors_eq (p : String) (hp : p.data.isEmpty = false) :
    (validatePrompt p).errors =
      ((if jsLengthList (jsTrimList p.data) < 3 then
          ["Prompt must be at least 3 characters long"] else []) ++
       (if jsLengthList (jsTrimList p.data) > 1000 then
          ["Prompt must be less than 1000 characters"] else [])) ++
      dangerousPatterns.filterMap
        (fun pm => if pm.1 (jsTrimList p.data) then some pm.2 else none) := by
  simp [validatePrompt, hp]

/-- C2: for every prompt, each dangerous pattern of the denylist is
checked independently against the trimmed text, and the errors of the
result hold exactly one copy of the pattern-specific message for each
matching pattern and none for a non-matching one. -/
theorem C2_dangerous_patterns_all_collected :
    ∀ (p : String) (pat : List Char → Bool) (msg : String),
      (pat, msg) ∈ dangerousPatterns →
      (validatePrompt p).errors.count msg =
        if pat (jsTrimList p.data) = true then 1 else 0 := by
  intro p pat msg hmem
  by_cases hp : p.data.isEmpty = true
  · obtain ⟨pd⟩ := p
    have hnil : pd = [] := by simpa using hp
    subst hnil
    simp only [dangerousPatterns, List.mem_cons, List.mem_singleton, Prod.mk.injEq,
      List.not_mem_nil, or_false] at hmem
    rcases hmem with ⟨rfl, rfl⟩ | ⟨rfl, rfl⟩ | ⟨rfl, rfl⟩ | ⟨rfl, rfl⟩ |
      ⟨rfl, rfl⟩ | ⟨rfl, rfl⟩ | ⟨rfl, rfl⟩ <;> decide
  · have hp' : p.data.isEmpty = false := by simpa using hp
    have hmsgmem : msg ∈ dangerousPatterns.map Prod.snd := by
      have := List.mem_map_of_mem Prod.snd hmem
      simpa using this
    have hne1 : msg ≠ "Prompt must be at least 3 characters long" := by
      intro h; rw [h] at hmsgmem; revert hmsgmem; decide
    have hne2 : msg ≠ "Prompt must be less than 1000 characters" := by
      intro h; rw [h] at hmsgmem; revert hmsgmem; decide
    rw [validatePrompt_errors_eq p hp', List.count_append, List.count_append]
    have hc1 : (if jsLengthList (jsTrimList p.data) < 3 then
        ["Prompt must be at least 3 characters long"] else []).count msg = 0 := by
      split <;> [exact List.count_eq_zero.mpr (by simp [hne1]); simp]
    have hc2 : (if jsLengthList (jsTrimList p.data) > 1000 then
        ["Prompt must be less than 1000 characters"] else []).count msg = 0 := by
      split <;> [exact List.count_eq_zero.mpr (by simp [hne2]); simp]
    rw [hc1, hc2, count_filterMap_if (jsTrimList p.data) dangerousPatterns pat msg hmem
      (by decide)]
    simp

theorem C2_dangerous_patterns_all_collected_witness :
    (hasEvalCall, "Eval functions are not allowed") ∈ dangerousPatterns ∧
    ((validatePrompt "please eval (this)").errors.count "Eval functions are not allowed" =
      if hasEvalCall (jsTrimList "please eval (this)".data) = true then 1 else 0) ∧
    hasEvalCall (jsTrimList "please eval (this)".data) = true := by
  have hmem : (hasEvalCall, "Eval functions are not allowed") ∈ dangerousPatterns := by
    simp [dangerousPatterns]
  have h := C2_dangerous_patterns_all_collected "please eval (this)" hasEvalCall
    "Eval functions are not allowed" hmem
  exact ⟨hmem, h, by decide⟩

/-- C3 amended: for every non-empty prompt string, a length error is
reported exactly when the trimmed length is below three or above one
thousand; the empty prompt instead is rejected with the required-prompt
error, so no length error appears for it even though its trimmed length
is zero. -/
theorem C3_length_errors_amended :
    ∀ p : String, p.data ≠ [] →
      (("Prompt must be at least 3 characters long" ∈ (validatePrompt p).errors ↔
          jsLength (jsTrim p) < 3) ∧
       ("Prompt must be less than 1000 characters" ∈ (validatePrompt p).errors ↔
          jsLength (jsTrim p) > 1000)) := by
  intro p hp
  have hp' : p.data.isEmpty = false := by
    cases hd : p.data with
    | nil => exact absurd hd hp
    | cons a l => rfl
  have hjl : jsLength (jsTrim p) = jsLengthList (jsTrimList p.data) := rfl
  have hmin : "Prompt must be at least 3 characters long" ∉
      dangerousPatterns.filterMap
        (fun pm => if pm.1 (jsTrimList p.data) then some pm.2 else none) := by
    intro hx
    have := mem_filterMap_iflist _ _ _ hx
    revert this; decide
  have hmax : "Prompt must be less than 1000 characters" ∉
      dangerousPatterns.filterMap
        (fun pm => if pm.1 (jsTrimList p.data) then some pm.2 else none) := by
    intro hx
    have := mem_filterMap_iflist _ _ _ hx
    revert this; decide
  rw [hjl]
  rw [validatePrompt_errors_eq p hp']
  constructor
  · by_cases h3 : jsLengthList (jsTrimList p.data) < 3 <;>
      by_cases h4 : jsLengthList (jsTrimList p.data) > 1000 <;>
      simp [h3, h4, hmin]
  · by_cases h3 : jsLengthList (jsTrimList p.data) < 3 <;>
      by_cases h4 : jsLengthList (jsTrimList p.data) > 1000 <;>
      simp [h3, h4, hmax]

/-- C3 counterexample: the claim fails at the empty prompt, whose
trimmed length is below three yet whose only error is the
required-prompt one, not a length error. -/
theorem C3_counterexample :
    jsLength (jsTrim "") < 3 ∧
    "Prompt must be at least 3 characters long" ∉ (validatePrompt "").errors ∧
    (validatePrompt "").errors = ["Prompt is required and must be a string"] :=
  ⟨by decide, by decide, by decide⟩

theorem C3_length_errors_amended_witness :
    "ab".data ≠ [] ∧
    ("Prompt must be at least 3 characters long" ∈ (validatePrompt "ab").errors ↔
      jsLength (jsTrim "ab") < 3) ∧
    ("Prompt must be less than 1000 characters" ∈ (validatePrompt "ab").errors ↔
      jsLength (jsTrim "ab") > 1000) := by
  have h := C3_length_errors_amended "ab" (by decide)
  exact ⟨by decide, h.1, h.2⟩

theorem splitAtCloseScript_sublist :
    ∀ (l a : List Char), splitAtCloseScript l = some a → a.Sublist l := by
  intro l
  induction l with
  | nil => intro a h; cases h
  | cons c rest ih =>
    intro a h
    unfold splitAtCloseScript at h
    split at h
    · obtain rfl := Option.some.inj h
      exact List.drop_sublist 9 (c :: rest)
    · exact (ih a h).trans (List.sublist_cons_self c rest)

theorem stripScriptsAux_sublist :
    ∀ (fuel : Nat) (l : List Char), (stripScriptsAux fuel l).Sublist l := by
  intro fuel
  induction fuel with
  | zero => intro l; cases l <;> simp [stripScriptsAux]
  | succ n ih =>
    intro l
    cases l with
    | nil => simp [stripScriptsAux]
    | cons c rest =>
      simp only [stripScriptsAux]
      split
      · split
        · next after heq =>
            exact ((ih after).trans (splitAtCloseScript_sublist _ _ heq)).trans
              (List.drop_sublist 7 (c :: rest))
        · exact (ih rest).cons₂ c
      · exact (ih rest).cons₂ c

theorem dropWhile_head_false (p : Char → Bool) :
    ∀ (l : List Char) (c : Char) (rest : List Char),
      l.dropWhile p = c :: rest → p c = false := by
  intro l
  induction l with
  | nil => intro c rest h; cases h
  | cons a l2 ih =>
    intro c rest h
    rw [List.dropWhile_cons] at h
    by_cases hpa : p a = true
    · rw [if_pos hpa] at h
      exact ih c rest h
    · rw [if_neg hpa] at h
      obtain ⟨rfl, -⟩ := List.cons.inj h
      exact Bool.eq_false_iff.mpr hpa

theorem hasBracePair_iff_sublist :
    ∀ l : List Char, hasBracePair l = true ↔ ['{', '}'].Sublist l := by
  intro l
  induction l with
  | nil => simp [hasBracePair]
  | cons c rest ih =>
    by_cases hc : c = '{'
    · subst hc
      have h1 : hasBracePair ('{' :: rest) = rest.contains '}' := by
        simp [hasBracePair]
      rw [h1]
      constructor
      · intro h
        have hm : '}' ∈ rest := List.elem_iff.mp h
        exact (List.singleton_sublist.mpr hm).cons₂ '{'
      · intro h
        cases h with
        | cons _ h' =>
          have hm : '}' ∈ rest := h'.subset (by simp)
          exact List.elem_iff.mpr hm
        | cons₂ _ h' =>
          exact List.elem_iff.mpr (List.singleton_sublist.mp h')
    · have h1 : hasBracePair (c :: rest) = hasBracePair rest := by
        have hbne : (c != '{') = true := by simpa using hc
        simp [hasBracePair, List.dropWhile_cons, hbne]
      rw [h1, ih]
      constructor
      · intro h
        exact h.trans (List.sublist_cons_self c rest)
      · intro h
        cases h with
        | cons _ h' => exact h'
        | cons₂ _ h' => exact absurd rfl hc

theorem bracesSpan_eq_none (l : List Char) (h : hasBracePair l = false) :
    bracesSpan l = none := by
  unfold bracesSpan
  unfold hasBracePair at h
  cases hdw : l.dropWhile (· != '{') with
  | nil => rfl
  | cons c rest =>
    rw [hdw] at h
    dsimp only at h ⊢
    have hc : c = '{' := by
      have := dropWhile_head_false _ l c rest hdw
      simpa using this
    have hnotin : '}' ∉ rest := by
      intro hm
      have hcont : rest.contains '}' = true := by simpa using hm
      rw [hcont] at h
      cases h
    have hall : (c :: rest).reverse.dropWhile (· != '}') = [] := by
      rw [List.dropWhile_eq_nil_iff]
      intro x hx
      rw [List.mem_reverse] at hx
      rcases List.mem_cons.mp hx with rfl | hx2
      · simp [hc]
      · have : x ≠ '}' := fun heq => hnotin (heq ▸ hx2)
        simpa using this
    rw [hall]

/-- C4: any upstream reply whose extraction attempt fails is recovered
by the fallback Template, which passes the inline shape check of the
generate handler, so the endpoint answers status 200 with ok true
carrying the fallback instead of surfacing an error. -/
theorem C4_unparseable_reply_recovers :
    ∀ text : String, extractJson text.data = none →
      safeJSONParse text = fallbackTemplate ∧
      templateShapeOk fallbackTemplate = true ∧
      routeFinish text =
        { status := 200, ok := true, error := none, template := some fallbackTemplate } := by
  intro text h
  have h1 : safeJSONParse text = fallbackTemplate := by
    unfold safeJSONParse
    rw [h]
  refine ⟨h1, rfl, ?_⟩
  unfold routeFinish
  rw [h1]
  rfl

theorem C4_unparseable_reply_recovers_witness :
    extractJson "The model could not answer.".data = none ∧
    safeJSONParse "The model could not answer." = fallbackTemplate ∧
    routeFinish "The model could not answer." =
      { status := 200, ok := true, error := none, template := some fallbackTemplate } := by
  have h := C4_unparseable_reply_recovers "The model could not answer." rfl
  exact ⟨rfl, h.1, h.2.2⟩

/-- C5: input text with no open brace followed by a close brace makes
the Response Extractor return exactly the fallback Template, whose
fields are the error title, empty sections, empty properties and the
explanatory notes, and which the Template Validator accepts with
warnings only. -/
theorem C5_no_brace_pair_fallback :
    ∀ text : String, hasBracePair text.data = false →
      safeJSONParse text = fallbackTemplate ∧
      getField fallbackTemplate "title" = some (Json.str "Template Generation Error") ∧
      getField fallbackTemplate "sections" = some (Json.arr []) ∧
      getField fallbackTemplate "properties" = some (Json.arr []) ∧
      getField fallbackTemplate "notes" =
        some (Json.str "Failed to parse AI response. Please try again.") ∧
      (validateTemplateStructure fallbackTemplate).errors = [] ∧
      (validateTemplateStructure fallbackTemplate).warnings =
        ["No sections defined", "No properties defined"] := by
  intro text h
  have hsub := stripScriptsAux_sublist text.data.length text.data
  have hstrip : hasBracePair (stripScripts text.data) = false := by
    cases hx : hasBracePair (stripScripts text.data) with
    | false => rfl
    | true =>
      have hx2 := (hasBracePair_iff_sublist _).mp hx
      have hx3 : ['{', '}'].Sublist text.data := hx2.trans hsub
      rw [← hasBracePair_iff_sublist] at hx3
      rw [hx3] at h
      cases h
  have hnone : bracesSpan (stripScripts text.data) = none := bracesSpan_eq_none _ hstrip
  have h1 : safeJSONParse text = fallbackTemplate := by
    unfold safeJSONParse extractJson
    rw [hnone]
  exact ⟨h1, rfl, rfl, rfl, rfl, rfl, rfl⟩

theorem C5_no_brace_pair_fallback_witness :
    hasBracePair "the model answered in prose only".data = false ∧
    safeJSONParse "the model answered in prose only" = fallbackTemplate ∧
    (validateTemplateStructure fallbackTemplate).errors = [] ∧
    (validateTemplateStructure fallbackTemplate).warnings =
      ["No sections defined", "No properties defined"] := by
  have h := C5_no_brace_pair_fallback "the model answered in prose only" (by decide)
  exact ⟨by decide, h.1, h.2.2.2.2.2.1, h.2.2.2.2.2.2⟩

theorem validateTemplateStructure_obj_errors (fs : List (String × Json)) :
    (validateTemplateStructure (Json.obj fs)).errors =
      (titleIssues (Json.obj fs)).1 ++ (sectionsBlock (Json.obj fs)).1 ++
      (propertiesBlock (Json.obj fs)).1 ++ (notesIssues (Json.obj fs)).1 := rfl

/-- C1 amended: the Template Validator does reject a property whose
type is a non-empty string outside the fixed enumeration, with the
error enumerating the full allowed set; but the generate endpoint never
invokes the Template Validator: it applies only the inline shape check,
so any extracted template with a truthy title and array sections and
properties is answered with status 200 and ok true, not with the
claimed 500 response. -/
theorem C1_invalid_type_amended :
    (∀ (fs : List (String × Json)) (props : List Json) (i : Nat) (p : Json)
       (ty : String),
      findField fs "properties" = some (Json.arr props) →
      props.get? i = some p → isObjectLike p = true →
      getField p "type" = some (Json.str ty) → ty.data ≠ [] →
      ty ∉ validPropertyTypes →
      ("Property " ++ natToStr (i + 1) ++ ": type must be one of: " ++
        validPropertyTypesJoined) ∈ (validateTemplateStructure (Json.obj fs)).errors) ∧
    (∀ text : String, templateShapeOk (safeJSONParse text) = true →
      routeFinish text =
        { status := 200, ok := true, error := none,
          template := some (safeJSONParse text) }) := by
  constructor
  · intro fs props i p ty hfind hget hobj hty htyne htymem
    rw [validateTemplateStructure_obj_errors]
    apply List.mem_append_left
    apply List.mem_append_right
    unfold propertiesBlock
    have hgf : getField (Json.obj fs) "properties" = some (Json.arr props) := hfind
    rw [hgf]
    dsimp only
    apply List.mem_flatten.mpr
    refine ⟨(propertyIssues i p).1, ?_, ?_⟩
    · have henum : (i, p) ∈ props.enum := by
        have h := List.get?_enum props i
        rw [hget] at h
        exact List.get?_mem h
      have h2 := List.mem_map_of_mem (fun q : Nat × Json => propertyIssues q.1 q.2) henum
      exact List.mem_map_of_mem Prod.fst h2
    · unfold propertyIssues
      rw [hobj]
      dsimp only
      apply List.mem_append_left
      apply List.mem_append_right
      rw [hty]
      have h1 : ty.data.isEmpty = false := by
        cases hd : ty.data with
        | nil => exact absurd hd htyne
        | cons a l => rfl
      have h2 : validPropertyTypes.contains ty = false := by
        cases hct : validPropertyTypes.contains ty with
        | false => rfl
        | true => exact absurd (List.elem_iff.mp hct) htymem
      simp [h1, h2, htymem]
  · intro text h
    unfold routeFinish respondWithTemplate
    rw [h]
    rfl

set_option maxRecDepth 100000 in
/-- C1 counterexample: an upstream reply parsing to a template whose
single property has type invalid-kind is rejected by the Template
Validator with the enumerating error, yet the generate endpoint
answers it with status 200 and ok true, not with the claimed 500
Invalid-template response. -/
theorem C1_counterexample :
    ("Property 1: type must be one of: " ++ validPropertyTypesJoined) ∈
      (validateTemplateStructure (safeJSONParse
        "\x7b\"title\":\"T\",\"sections\":[],\"properties\":[\x7b\"name\":\"X\",\"type\":\"invalid-kind\",\"description\":\"d\"\x7d]\x7d")).errors ∧
    (validateTemplateStructure (safeJSONParse
        "\x7b\"title\":\"T\",\"sections\":[],\"properties\":[\x7b\"name\":\"X\",\"type\":\"invalid-kind\",\"description\":\"d\"\x7d]\x7d")).isValid
      = false ∧
    (routeFinish
        "\x7b\"title\":\"T\",\"sections\":[],\"properties\":[\x7b\"name\":\"X\",\"type\":\"invalid-kind\",\"description\":\"d\"\x7d]\x7d").status
      = 200 ∧
    (routeFinish
        "\x7b\"title\":\"T\",\"sections\":[],\"properties\":[\x7b\"name\":\"X\",\"type\":\"invalid-kind\",\"description\":\"d\"\x7d]\x7d").ok
      = true ∧
    (routeFinish
        "\x7b\"title\":\"T\",\"sections\":[],\"properties\":[\x7b\"name\":\"X\",\"type\":\"invalid-kind\",\"description\":\"d\"\x7d]\x7d").error
      = none ∧
    ¬ (routeFinish
        "\x7b\"title\":\"T\",\"sections\":[],\"properties\":[\x7b\"name\":\"X\",\"type\":\"invalid-kind\",\"description\":\"d\"\x7d]\x7d").status
      = 500 :=
  ⟨by decide, by decide, by decide, by decide, by decide, by decide⟩

set_option maxRecDepth 100000 in
theorem C1_invalid_type_amended_witness :
    ("Property 1: type must be one of: " ++ validPropertyTypesJoined) ∈
      (validateTemplateStructure (Json.obj
        [("properties", Json.arr [Json.obj [("type", Json.str "invalid-kind")]])])).errors ∧
    routeFinish "\x7b\"title\":\"T\",\"sections\":[],\"properties\":[]\x7d" =
      { status := 200, ok := true, error := none,
        template := some (safeJSONParse
          "\x7b\"title\":\"T\",\"sections\":[],\"properties\":[]\x7d") } := by
  have h1 := C1_invalid_type_amended.1
    [("properties", Json.arr [Json.obj [("type", Json.str "invalid-kind")]])]
    [Json.obj [("type", Json.str "invalid-kind")]] 0
    (Json.obj [("type", Json.str "invalid-kind")]) "invalid-kind"
    rfl rfl rfl rfl (by decide) (by decide)
  have h2 := C1_invalid_type_amended.2
    "\x7b\"title\":\"T\",\"sections\":[],\"properties\":[]\x7d" (by decide)
  have heq : ("Property " ++ natToStr (0 + 1) ++ ": type must be one of: " ++
      validPropertyTypesJoined) =
      ("Property 1: type must be one of: " ++ validPropertyTypesJoined) := by decide
  exact ⟨heq ▸ h1, h2⟩

theorem dropWhile_append_all (p : Char → Bool) :
    ∀ (l1 l2 : List Char), (∀ x ∈ l1, p x = true) →
      (l1 ++ l2).dropWhile p = l2.dropWhile p := by
  intro l1
  induction l1 with
  | nil => intro l2 _; rfl
  | cons a t ih =>
    intro l2 hall
    rw [List.cons_append, List.dropWhile_cons, if_pos (hall a (by simp))]
    exact ih l2 (fun x hx => hall x (by simp [hx]))

/-- C6 amended: when the defensive script-element stripping leaves the
text unchanged, any text that is braceless prose around one complete
JSON object text, starting with an open brace and ending with a close
brace, is extracted as exactly that span and parsed to its value; no
fallback is produced.  The stripping proviso is necessary: see the
counterexample, where the object sits inside a script element and the
whole span is removed before brace matching. -/
theorem C6_embedded_object_amended :
    ∀ (p1 objText p2 : List Char) (v : Json),
      stripScripts (p1 ++ (objText ++ p2)) = p1 ++ (objText ++ p2) →
      '{' ∉ p1 → '}' ∉ p1 → '{' ∉ p2 → '}' ∉ p2 →
      objText.head? = some '{' → objText.getLast? = some '}' →
      parseJsonText objText = some v →
      safeJSONParse ⟨p1 ++ (objText ++ p2)⟩ = v := by
  intro p1 objText p2 v hstrip hp1o hp1c hp2o hp2c hhead hlast hparse
  obtain ⟨t, rfl⟩ : ∃ t, objText = '{' :: t := by
    cases objText with
    | nil => cases hhead
    | cons a t =>
      obtain rfl := Option.some.inj hhead
      exact ⟨t, rfl⟩
  have hspan : bracesSpan (p1 ++ ('{' :: t ++ p2)) = some ('{' :: t) := by
    unfold bracesSpan
    have hd1 : (p1 ++ ('{' :: t ++ p2)).dropWhile (· != '{') = '{' :: (t ++ p2) := by
      rw [dropWhile_append_all _ p1 _ (fun x hx => by
        have : x ≠ '{' := fun heq => hp1o (heq ▸ hx)
        simpa using this)]
      rw [List.cons_append, List.dropWhile_cons]
      simp
    rw [hd1]
    dsimp only
    have hrev : ('{' :: (t ++ p2)).reverse = p2.reverse ++ (t.reverse ++ ['{']) := by
      rw [List.reverse_cons, List.reverse_append, List.append_assoc]
    have hlast2 : (t.reverse ++ ['{']).head? = some '}' := by
      have h := hlast
      rw [List.getLast?_eq_head?_reverse, List.reverse_cons] at h
      exact h
    cases htr : t.reverse with
    | nil => rw [htr] at hlast2; simp at hlast2
    | cons hd r =>
      have hhd : hd = '}' := by
        rw [htr] at hlast2
        simpa using hlast2
      subst hhd
      have hd2 : (('{' :: (t ++ p2)).reverse).dropWhile (· != '}') = '}' :: (r ++ ['{']) := by
        rw [hrev, dropWhile_append_all _ p2.reverse _ (fun x hx => by
          rw [List.mem_reverse] at hx
          have : x ≠ '}' := fun heq => hp2c (heq ▸ hx)
          simpa using this)]
        rw [htr, List.cons_append, List.dropWhile_cons]
        simp
      rw [hd2]
      dsimp only
      have : ('}' :: (r ++ ['{'])).reverse = '{' :: t := by
        have ht : t = ('}' :: r).reverse := by
          rw [← htr, List.reverse_reverse]
        rw [ht]
        simp
      rw [this]
  show safeJSONParse ⟨p1 ++ ('{' :: t ++ p2)⟩ = v
  unfold safeJSONParse extractJson
  have hdata : (String.mk (p1 ++ ('{' :: t ++ p2))).data = p1 ++ ('{' :: t ++ p2) := rfl
  rw [hdata, hstrip, hspan]
  dsimp only
  rw [hparse]

set_option maxRecDepth 100000 in
/-- C6 counterexample: the claim as stated fails when the surrounding
prose is itself a script element: the single well-formed JSON object
between braceless prose is removed by the script stripping step and
the extractor produces the fallback Template instead of parsing the
object. -/
theorem C6_counterexample :
    '{' ∉ "<script>".data ∧ '}' ∉ "<script>".data ∧
    '{' ∉ "</script>".data ∧ '}' ∉ "</script>".data ∧
    parseJsonText "\x7b\"title\":1\x7d".data =
      some (Json.obj [("title", Json.num 1 0)]) ∧
    "<script>\x7b\"title\":1\x7d</script>".data =
      "<script>".data ++ ("\x7b\"title\":1\x7d".data ++ "</script>".data) ∧
    safeJSONParse "<script>\x7b\"title\":1\x7d</script>" = fallbackTemplate ∧
    fallbackTemplate ≠ Json.obj [("title", Json.num 1 0)] :=
  ⟨by decide, by decide, by decide, by decide, rfl, rfl, rfl,
   fun h => by cases h⟩

set_option maxRecDepth 100000 in
theorem C6_embedded_object_amended_witness :
    safeJSONParse ⟨"Here you go: ".data ++
      ("\x7b\"title\":\"T\",\"sections\":[],\"properties\":[]\x7d".data ++
       " thanks".data)⟩ =
    Json.obj [("title", Json.str "T"), ("sections", Json.arr []),
              ("properties", Json.arr [])] := by
  have h := C6_embedded_object_amended "Here you go: ".data
    "\x7b\"title\":\"T\",\"sections\":[],\"properties\":[]\x7d".data
    " thanks".data
    (Json.obj [("title", Json.str "T"), ("sections", Json.arr []),
               ("properties", Json.arr [])])
    (by decide) (by decide) (by decide) (by decide) (by decide)
    rfl rfl rfl
  exact h

theorem digitChar_isDigit (m : Nat) (h : m < 10) : isDigitChar (digitChar m) = true := by
  interval_cases m <;> decide

theorem digitChar_toNat (m : Nat) (h : m < 10) : (digitChar m).toNat = 48 + m := by
  interval_cases m <;> decide

theorem digitChar_ne_zero (m : Nat) (h1 : m < 10) (h2 : m ≠ 0) : digitChar m ≠ '0' := by
  interval_cases m <;> first | exact absurd rfl h2 | decide

theorem digitsToNat_append_single (a : List Char) (d : Char) :
    digitsToNat (a ++ [d]) = 10 * digitsToNat a + (d.toNat - 48) := by
  unfold digitsToNat
  rw [List.foldl_append]
  rfl

theorem digitsToNat_single (d : Char) : digitsToNat [d] = d.toNat - 48 := by
  unfold digitsToNat
  simp

theorem natDigitsAux_spec :
    ∀ (fuel n : Nat), n < 10 ^ fuel → 0 < fuel →
      natDigitsAux fuel n ≠ [] ∧
      (∀ c ∈ natDigitsAux fuel n, isDigitChar c = true) ∧
      digitsToNat (natDigitsAux fuel n) = n ∧
      (n = 0 → natDigitsAux fuel n = ['0']) ∧
      (n ≠ 0 → ∀ c, (natDigitsAux fuel n).head? = some c → c ≠ '0') := by
  intro fuel
  induction fuel with
  | zero => intro n _ hf; omega
  | succ f ih =>
    intro n h _
    by_cases hn : n < 10
    · have hd : natDigitsAux (f + 1) n = [digitChar n] := by
        conv_lhs => rw [natDigitsAux]
        rw [if_pos hn]
      rw [hd]
      refine ⟨by simp, ?_, ?_, ?_, ?_⟩
      · intro c hc
        rw [List.mem_singleton] at hc
        rw [hc]
        exact digitChar_isDigit n hn
      · rw [digitsToNat_single, digitChar_toNat n hn]
        omega
      · intro h0
        rw [h0]
        rfl
      · intro h0 c hc
        simp at hc
        exact hc ▸ digitChar_ne_zero n hn h0
    · have hd : natDigitsAux (f + 1) n =
          natDigitsAux f (n / 10) ++ [digitChar (n % 10)] := by
        conv_lhs => rw [natDigitsAux]
        rw [if_neg hn]
      have hf : 0 < f := by
        rcases Nat.eq_zero_or_pos f with rfl | hf
        · rw [pow_one] at h; omega
        · exact hf
      have hdiv : n / 10 < 10 ^ f := by
        rw [Nat.div_lt_iff_lt_mul (by omega : 0 < 10)]
        calc n < 10 ^ (f + 1) := h
          _ = 10 ^ f * 10 := by rw [pow_succ]
      obtain ⟨hne, hall, hval, hzero, hhead⟩ := ih (n / 10) hdiv hf
      have hdivne : n / 10 ≠ 0 := by
        intro hcontra
        have := Nat.div_eq_zero_iff (by omega : 0 < 10) |>.mp hcontra
        omega
      rw [hd]
      refine ⟨by simp, ?_, ?_, ?_, ?_⟩
      · intro c hc
        rcases List.mem_append.mp hc with hc1 | hc2
        · exact hall c hc1
        · rw [List.mem_singleton] at hc2
          rw [hc2]
          exact digitChar_isDigit _ (Nat.mod_lt n (by omega))
      · rw [digitsToNat_append_single, hval, digitChar_toNat _ (Nat.mod_lt n (by omega))]
        omega
      · intro h0; omega
      · intro _ c hc
        obtain ⟨hd1, t1, hcons⟩ := List.exists_cons_of_ne_nil hne
        rw [hcons, List.cons_append] at hc
        simp at hc
        subst hc
        exact hhead hdivne _ (by rw [hcons]; rfl)

theorem natDigits_spec (n : Nat) :
    natDigits n ≠ [] ∧
    (∀ c ∈ natDigits n, isDigitChar c = true) ∧
    digitsToNat (natDigits n) = n ∧
    (n = 0 → natDigits n = ['0']) ∧
    (n ≠ 0 → ∀ c, (natDigits n).head? = some c → c ≠ '0') := by
  have h : n < 10 ^ (n + 1) := by
    calc n < 10 ^ n := Nat.lt_pow_self (by omega) n
      _ ≤ 10 ^ (n + 1) := Nat.pow_le_pow_right (by omega) (by omega)
  exact natDigitsAux_spec (n + 1) n h (by omega)

theorem takeWhile_digits_append :
    ∀ (ds rest : List Char), (∀ c ∈ ds, isDigitChar c = true) → noDigitHead rest →
      (ds ++ rest).takeWhile isDigitChar = ds ∧
      (ds ++ rest).dropWhile isDigitChar = rest := by
  intro ds
  induction ds with
  | nil =>
    intro rest _ hrest
    simp only [List.nil_append]
    cases rest with
    | nil => simp
    | cons c r =>
      have := hrest c rfl
      simp [List.takeWhile_cons, List.dropWhile_cons, this]
  | cons a t ih =>
    intro rest hds hrest
    have ha : isDigitChar a = true := hds a (by simp)
    have iht := ih rest (fun c hc => hds c (by simp [hc])) hrest
    simp [List.takeWhile_cons, List.dropWhile_cons, ha, iht.1, iht.2]

theorem parseExp_tail (e : Int) (rest : List Char) (hrest : noDigitHead rest) :
    parseExp ('e' :: (intDec e ++ rest)) = some (e, rest) := by
  obtain ⟨hene, heall, heval, hezero, hehead⟩ := natDigits_spec e.natAbs
  have htw := takeWhile_digits_append (natDigits e.natAbs) rest heall hrest
  have hnemp : (natDigits e.natAbs).isEmpty = false := by
    cases hh : natDigits e.natAbs with
    | nil => exact absurd hh hene
    | cons a t => rfl
  by_cases he : e < 0
  · have hie : intDec e = '-' :: natDigits e.natAbs := by
      unfold intDec; rw [if_pos he]
    rw [hie, List.cons_append]
    simp only [parseExp]
    simp [htw.1, htw.2, hnemp, heval]
    simp [abs_of_neg he]
  · have hie : intDec e = natDigits e.natAbs := by
      unfold intDec; rw [if_neg he]
    rw [hie]
    obtain ⟨c0, t0, hc0⟩ := List.exists_cons_of_ne_nil hene
    have hdig : isDigitChar c0 = true := heall c0 (by rw [hc0]; simp)
    have hne1 : (c0 == '+') = false := by
      rw [beq_eq_false_iff_ne]
      intro hcc
      rw [hcc] at hdig
      simp [isDigitChar] at hdig
    have hne2 : (c0 == '-') = false := by
      rw [beq_eq_false_iff_ne]
      intro hcc
      rw [hcc] at hdig
      simp [isDigitChar] at hdig
    have htw1 : List.takeWhile isDigitChar (c0 :: (t0 ++ rest)) = c0 :: t0 := by
      rw [← List.cons_append, ← hc0]; exact htw.1
    have htw2 : List.dropWhile isDigitChar (c0 :: (t0 ++ rest)) = rest := by
      rw [← List.cons_append, ← hc0]; exact htw.2
    rw [hc0, List.cons_append]
    simp only [parseExp]
    simp [hne1, hne2, htw1, htw2]
    rw [← hc0, heval]
    omega

theorem parseNumberToken_intDec (m e : Int) (rest : List Char)
    (hrest : noDigitHead rest) :
    parseNumberToken ((intDec m ++ ('e' :: intDec e)) ++ rest) = some ((m, e), rest) := by
  obtain ⟨hmne, hmall, hmval, hmzero, hmhead⟩ := natDigits_spec m.natAbs
  have hndet : noDigitHead (('e' :: intDec e) ++ rest) := by
    intro c hc
    rw [List.cons_append] at hc
    obtain rfl := Option.some.inj hc
    decide
  have htw := takeWhile_digits_append (natDigits m.natAbs)
    (('e' :: intDec e) ++ rest) hmall hndet
  have htkn : List.takeWhile isDigitChar
      (natDigits m.natAbs ++ ('e' :: (intDec e ++ rest))) = natDigits m.natAbs := by
    rw [← List.cons_append]
    exact htw.1
  have htdn : List.dropWhile isDigitChar
      (natDigits m.natAbs ++ ('e' :: (intDec e ++ rest))) = 'e' :: (intDec e ++ rest) := by
    rw [← List.cons_append]
    rw [htw.2]
  have hexp : parseExp ('e' :: (intDec e ++ rest)) = some (e, rest) :=
    parseExp_tail e rest hrest
  have hmemp : (natDigits m.natAbs).isEmpty = false := by
    cases hh : natDigits m.natAbs with
    | nil => exact absurd hh hmne
    | cons a t => rfl
  have hlzp : (natDigits m.natAbs).head? = some '0' → (natDigits m.natAbs).length = 1 := by
    intro hh
    by_cases h0 : m.natAbs = 0
    · rw [hmzero h0]; rfl
    · obtain ⟨c0, t0, hc0⟩ := List.exists_cons_of_ne_nil hmne
      rw [hc0] at hh
      have hc0z : c0 = '0' := Option.some.inj hh
      exact absurd hc0z (hmhead h0 c0 (by rw [hc0]; rfl))
  rw [List.append_assoc]
  by_cases hm : m < 0
  · have him : intDec m = '-' :: natDigits m.natAbs := by
      unfold intDec; rw [if_pos hm]
    rw [him]
    simp only [List.cons_append]
    simp only [parseNumberToken]
    simp [htkn, htdn, hlzp, hmemp, parseFrac, hexp, hmval, abs_of_neg hm]
    exact hlzp
  · have him : intDec m = natDigits m.natAbs := by
      unfold intDec; rw [if_neg hm]
    rw [him]
    obtain ⟨c0, t0, hc0⟩ := List.exists_cons_of_ne_nil hmne
    have hdig : isDigitChar c0 = true := hmall c0 (by rw [hc0]; simp)
    have hne2 : (c0 == '-') = false := by
      rw [beq_eq_false_iff_ne]
      intro hcc
      rw [hcc] at hdig
      simp [isDigitChar] at hdig
    have htkc : List.takeWhile isDigitChar
        (c0 :: (t0 ++ ('e' :: (intDec e ++ rest)))) = c0 :: t0 := by
      rw [← List.cons_append, ← hc0]
      exact htkn
    have htdc : List.dropWhile isDigitChar
        (c0 :: (t0 ++ ('e' :: (intDec e ++ rest)))) = 'e' :: (intDec e ++ rest) := by
      rw [← List.cons_append, ← hc0]
      exact htdn
    have hlzc : (c0 :: t0).head? = some '0' → (c0 :: t0).length = 1 := by
      rw [← hc0]
      exact hlzp
    rw [hc0]
    simp only [List.cons_append]
    simp only [parseNumberToken]
    simp [hne2, hdig, htkc, htdc, hlzc, parseFrac, hexp]
    rw [← hc0, hmval]
    simp [abs_of_nonneg (not_lt.mp hm)]
    intro h
    subst h
    simpa using hlzc rfl

theorem hexVal_hexDigitChar (n : Nat) (h : n < 16) :
    hexDigitVal (hexDigitChar n) = some n := by
  interval_cases n <;> decide

theorem parseStringBody_escape (s : List Char) :
    ∀ rest : List Char,
      parseStringBody (escapeStr s ++ ('"' :: rest)) = some (s, rest) := by
  induction s with
  | nil =>
    intro rest
    show parseStringBody ('"' :: rest) = some ([], rest)
    rw [parseStringBody.eq_def]
    simp
  | cons c cs ih =>
    intro rest
    have hesc : escapeStr (c :: cs) = escapeChar c ++ escapeStr cs := by
      simp [escapeStr]
    rw [hesc, List.append_assoc]
    by_cases h1 : c = '"'
    · subst h1
      show parseStringBody ('\\' :: '"' :: (escapeStr cs ++ ('"' :: rest))) =
        some ('"' :: cs, rest)
      rw [parseStringBody.eq_def]
      simp [ih rest]
    · by_cases h2 : c = '\\'
      · subst h2
        show parseStringBody ('\\' :: '\\' :: (escapeStr cs ++ ('"' :: rest))) =
          some ('\\' :: cs, rest)
        rw [parseStringBody.eq_def]
        simp [ih rest]
      · have hb1 : (c == '"') = false := beq_eq_false_iff_ne.mpr h1
        have hb2 : (c == '\\') = false := beq_eq_false_iff_ne.mpr h2
        by_cases h3 : c.toNat < 0x20
        · have hec : escapeChar c =
              ['\\', 'u', '0', '0', hexDigitChar (c.toNat / 16),
               hexDigitChar (c.toNat % 16)] := by
            simp [escapeChar, hb1, hb2, h3]
          rw [hec]
          have hdiv : c.toNat / 16 < 16 := by omega
          have hmod : c.toNat % 16 < 16 := by omega
          have harith : ((0 * 16 + 0) * 16 + c.toNat / 16) * 16 + c.toNat % 16 =
              c.toNat := by omega
          have harith2 : c.toNat / 16 * 16 + c.toNat % 16 = c.toNat := by omega
          have h00 : hexDigitVal '0' = some 0 := by decide
          show parseStringBody ('\\' :: 'u' :: '0' :: '0' ::
              hexDigitChar (c.toNat / 16) :: hexDigitChar (c.toNat % 16) ::
              (escapeStr cs ++ ('"' :: rest))) = some (c :: cs, rest)
          rw [parseStringBody.eq_def]
          simp [h00, hexVal_hexDigitChar _ hdiv, hexVal_hexDigitChar _ hmod,
            ih rest, harith, harith2, Char.ofNat_toNat]
        · have hec : escapeChar c = [c] := by
            simp [escapeChar, hb1, hb2, h3]
          rw [hec]
          show parseStringBody (c :: (escapeStr cs ++ ('"' :: rest))) =
            some (c :: cs, rest)
          rw [parseStringBody.eq_def]
          simp [hb1, hb2, h3, ih rest]

theorem skipJsonWs_cons (c : Char) (l : List Char) (h : isJsonWs c = false) :
    skipJsonWs (c :: l) = c :: l := by
  simp [skipJsonWs, List.dropWhile_cons, h]

theorem notDigit_of_eq (c : Char) (n : Nat) (h : c.toNat = n)
    (hn : n < 48 ∨ 57 < n) : isDigitChar c = false := by
  simp [isDigitChar]
  omega

theorem digit_not_special (c : Char) (h : isDigitChar c = true) :
    isJsonWs c = false ∧ (c == '{') = false ∧ (c == '[') = false ∧
    (c == '"') = false ∧ (c == 't') = false ∧ (c == 'f') = false ∧
    (c == 'n') = false ∧ c ≠ ']' ∧ c ≠ '}' := by
  simp [isDigitChar] at h
  have hne : ∀ d : Char, d.toNat < 48 ∨ 57 < d.toNat → c ≠ d := by
    intro d hd heq
    subst heq
    omega
  refine ⟨?_, ?_, ?_, ?_, ?_, ?_, ?_, ?_, ?_⟩
  · simp [isJsonWs]
    refine ⟨⟨⟨?_, ?_⟩, ?_⟩, ?_⟩ <;> (intro heq; subst heq; exact absurd h (by decide))
  · exact beq_eq_false_iff_ne.mpr (hne '{' (by decide))
  · exact beq_eq_false_iff_ne.mpr (hne '[' (by decide))
  · exact beq_eq_false_iff_ne.mpr (hne '"' (by decide))
  · exact beq_eq_false_iff_ne.mpr (hne 't' (by decide))
  · exact beq_eq_false_iff_ne.mpr (hne 'f' (by decide))
  · exact beq_eq_false_iff_ne.mpr (hne 'n' (by decide))
  · exact hne ']' (by decide)
  · exact hne '}' (by decide)

theorem insertField_of_not_mem (fs : List (String × Json)) (k : String) (v : Json)
    (h : fs.any (fun p => p.1 == k) = false) :
    insertField fs k v = fs ++ [(k, v)] := by
  induction fs with
  | nil => rfl
  | cons p rest ih =>
    obtain ⟨k2, v2⟩ := p
    rw [List.any_cons] at h
    rw [Bool.or_eq_false_iff] at h
    simp only [insertField]
    rw [if_neg (by simp [h.1])]
    rw [ih h.2]
    simp

theorem nodupKeysB_cons (k : String) (v : Json) (t : List (String × Json)) :
    nodupKeysB ((k, v) :: t) = (!(t.any (fun p => p.1 == k)) && nodupKeysB t) := rfl

theorem nodupKeysB_head_not_mem :
    ∀ (acc : List (String × Json)) (k : String) (v : Json)
      (fs2 : List (String × Json)),
      nodupKeysB (acc ++ (k, v) :: fs2) = true →
      acc.any (fun p => p.1 == k) = false := by
  intro acc
  induction acc with
  | nil => intro k v fs2 _; rfl
  | cons p rest ih =>
    intro k v fs2 h
    obtain ⟨k2, v2⟩ := p
    rw [List.cons_append, nodupKeysB_cons, Bool.and_eq_true] at h
    obtain ⟨hnot, hrest⟩ := h
    rw [List.any_cons, Bool.or_eq_false_iff]
    constructor
    · rw [beq_eq_false_iff_ne]
      intro hcontra
      have hmem : ((rest ++ (k, v) :: fs2).any (fun p => p.1 == k2)) = false := by
        simpa using hnot
      rw [List.any_eq_false] at hmem
      have hkv := hmem (k, v) (by simp)
      simp at hkv
      exact hkv hcontra.symm
    · exact ih k v fs2 hrest

theorem intDec_shape (i : Int) :
    ∃ c t, intDec i = c :: t ∧ isJsonWs c = false ∧ c ≠ ']' ∧ c ≠ '}' ∧
      (c == '{') = false ∧ (c == '[') = false ∧ (c == '"') = false ∧
      (c == 't') = false ∧ (c == 'f') = false ∧ (c == 'n') = false := by
  obtain ⟨hne, hall, _, _, _⟩ := natDigits_spec i.natAbs
  by_cases hi : i < 0
  · obtain ⟨c0, t0, hc0⟩ := List.exists_cons_of_ne_nil hne
    refine ⟨'-', natDigits i.natAbs, ?_, by decide⟩
    unfold intDec
    rw [if_pos hi]
  · obtain ⟨c0, t0, hc0⟩ := List.exists_cons_of_ne_nil hne
    have hdig : isDigitChar c0 = true := hall c0 (by rw [hc0]; simp)
    obtain ⟨hw, h1, h2, h3, h4, h5, h6, h7, h8⟩ := digit_not_special c0 hdig
    refine ⟨c0, t0, ?_, hw, h7, h8, h1, h2, h3, h4, h5, h6⟩
    unfold intDec
    rw [if_neg hi]
    exact hc0

theorem stringify_head (v : Json) :
    ∃ c t, stringifyJson v = c :: t ∧ isJsonWs c = false ∧ c ≠ ']' ∧ c ≠ '}' := by
  cases v with
  | null => exact ⟨'n', _, rfl, by decide⟩
  | bool b =>
    cases b with
    | true => exact ⟨'t', _, rfl, by decide⟩
    | false => exact ⟨'f', _, rfl, by decide⟩
  | num m e =>
    obtain ⟨c, t, hct, hw, hb, hb2, _, _, _, _, _, _⟩ := intDec_shape m
    refine ⟨c, t ++ ('e' :: intDec e), ?_, hw, hb, hb2⟩
    show intDec m ++ ('e' :: intDec e) = c :: (t ++ ('e' :: intDec e))
    rw [hct, List.cons_append]
  | str s => exact ⟨'"', _, rfl, by decide⟩
  | arr es =>
    refine ⟨'[', stringifyElems es ++ [']'], ?_, by decide⟩
    show ('[' :: stringifyElems es) ++ [']'] = '[' :: (stringifyElems es ++ [']'])
    rw [List.cons_append]
  | obj fs =>
    refine ⟨'{', stringifyMembers fs ++ ['}'], ?_, by decide⟩
    show ('{' :: stringifyMembers fs) ++ ['}'] = '{' :: (stringifyMembers fs ++ ['}'])
    rw [List.cons_append]

mutual

theorem jsonSize_le : ∀ v : Json, jsonSize v ≤ (stringifyJson v).length
  | Json.null => by simp [jsonSize, stringifyJson]
  | Json.bool true => by simp [jsonSize, stringifyJson]
  | Json.bool false => by simp [jsonSize, stringifyJson]
  | Json.num m e => by
    obtain ⟨c, t, hct, _, _, _, _, _, _, _, _, _⟩ := intDec_shape m
    show jsonSize (Json.num m e) ≤ (intDec m ++ ('e' :: intDec e)).length
    rw [hct]
    simp [jsonSize]
  | Json.str s => by
    show jsonSize (Json.str s) ≤ (('"' :: escapeStr s.data) ++ ['"']).length
    simp [jsonSize]
  | Json.arr es => by
    have h := elemsSize_le es
    show jsonSize (Json.arr es) ≤ (('[' :: stringifyElems es) ++ [']']).length
    simp [jsonSize]
    omega
  | Json.obj fs => by
    have h := membersSize_le fs
    show jsonSize (Json.obj fs) ≤ (('{' :: stringifyMembers fs) ++ ['}']).length
    simp [jsonSize]
    omega

theorem elemsSize_le : ∀ es : List Json, elemsSize es ≤ (stringifyElems es).length + 1
  | [] => by simp [elemsSize]
  | [e] => by
    have h := jsonSize_le e
    show elemsSize [e] ≤ (stringifyJson e).length + 1
    simp [elemsSize, elemsSize.eq_def]
    omega
  | e :: e2 :: rest => by
    have h1 := jsonSize_le e
    have h2 := elemsSize_le (e2 :: rest)
    show elemsSize (e :: e2 :: rest) ≤
      (stringifyJson e ++ (',' :: stringifyElems (e2 :: rest))).length + 1
    simp [elemsSize] at h2 ⊢
    omega

theorem membersSize_le : ∀ fs : List (String × Json),
    membersSize fs ≤ (stringifyMembers fs).length + 1
  | [] => by simp [membersSize]
  | [(k, v)] => by
    have h := jsonSize_le v
    show membersSize [(k, v)] ≤
      (('"' :: escapeStr k.data) ++ ('"' :: ':' :: stringifyJson v)).length + 1
    simp [membersSize]
    omega
  | (k, v) :: p :: rest => by
    have h1 := jsonSize_le v
    have h2 := membersSize_le (p :: rest)
    show membersSize ((k, v) :: p :: rest) ≤
      ((('"' :: escapeStr k.data) ++ ('"' :: ':' :: stringifyJson v)) ++
        (',' :: stringifyMembers (p :: rest))).length + 1
    simp [membersSize] at h2 ⊢
    omega

end

theorem jsonSize_pos (v : Json) : 1 ≤ jsonSize v := by
  cases v <;> simp [jsonSize]

theorem stringifyElems_cons_eq (e : Json) (es2 : List Json) :
    ∃ u, stringifyElems (e :: es2) = stringifyJson e ++ u ∧
      (u = [] ∨ ∃ w, u = ',' :: w) := by
  cases es2 with
  | nil => exact ⟨[], by simp [stringifyElems], Or.inl rfl⟩
  | cons e2 es3 =>
    exact ⟨',' :: stringifyElems (e2 :: es3), by simp [stringifyElems], Or.inr ⟨_, rfl⟩⟩

theorem stringifyMembers_cons_ex (k : String) (v : Json) (fs2 : List (String × Json)) :
    ∃ u, stringifyMembers ((k, v) :: fs2) = '"' :: u := by
  cases fs2 with
  | nil =>
    exact ⟨escapeStr k.data ++ ('"' :: ':' :: stringifyJson v), by simp [stringifyMembers]⟩
  | cons p r =>
    exact ⟨escapeStr k.data ++ ('"' :: ':' :: stringifyJson v) ++
      (',' :: stringifyMembers (p :: r)), by simp [stringifyMembers]⟩

mutual

theorem parseValue_stringify : ∀ (v : Json) (fuel : Nat) (rest : List Char),
    jsonSize v ≤ fuel → jsonWF v = true → sepHead rest →
    parseValue fuel (stringifyJson v ++ rest) = some (v, rest)
  | v, 0, rest => by
    intro hsz _ _
    have := jsonSize_pos v
    omega
  | Json.null, fuel + 1, rest => by
    intro _ _ _
    show parseValue (fuel + 1) ('n' :: ('u' :: 'l' :: 'l' :: rest)) =
      some (Json.null, rest)
    rw [parseValue]
    rw [skipJsonWs_cons _ _ (by decide)]
    simp
  | Json.bool true, fuel + 1, rest => by
    intro _ _ _
    show parseValue (fuel + 1) ('t' :: ('r' :: 'u' :: 'e' :: rest)) =
      some (Json.bool true, rest)
    rw [parseValue]
    rw [skipJsonWs_cons _ _ (by decide)]
    simp
  | Json.bool false, fuel + 1, rest => by
    intro _ _ _
    show parseValue (fuel + 1) ('f' :: ('a' :: 'l' :: 's' :: 'e' :: rest)) =
      some (Json.bool false, rest)
    rw [parseValue]
    rw [skipJsonWs_cons _ _ (by decide)]
    simp
  | Json.str s, fuel + 1, rest => by
    intro _ _ _
    have harg : stringifyJson (Json.str s) ++ rest =
        '"' :: (escapeStr s.data ++ ('"' :: rest)) := by
      simp [stringifyJson]
    rw [harg, parseValue]
    rw [skipJsonWs_cons _ _ (by decide)]
    simp [parseStringBody_escape s.data rest]
  | Json.num m e, fuel + 1, rest => by
    intro _ _ hsep
    obtain ⟨c, t, hct, hw, _, _, hb1, hb2, hb3, hb4, hb5, hb6⟩ := intDec_shape m
    have hnum := parseNumberToken_intDec m e rest (fun c2 hc2 => by
      rcases hsep c2 hc2 with rfl | rfl | rfl <;> decide)
    rw [hct] at hnum
    rw [List.cons_append, List.cons_append] at hnum
    show parseValue (fuel + 1) ((intDec m ++ ('e' :: intDec e)) ++ rest) =
      some (Json.num m e, rest)
    rw [hct, List.cons_append, List.cons_append]
    rw [parseValue]
    rw [skipJsonWs_cons _ _ hw]
    simp only [hb1, hb2, hb3, hb4, hb5, hb6, if_false, Bool.false_eq_true]
    rw [hnum]
  | Json.arr [], fuel + 1, rest => by
    intro _ _ _
    show parseValue (fuel + 1) ('[' :: (']' :: rest)) = some (Json.arr [], rest)
    rw [parseValue]
    rw [skipJsonWs_cons _ _ (by decide)]
    simp [skipJsonWs_cons _ _ (by decide : isJsonWs ']' = false)]
  | Json.arr (e :: es2), fuel + 1, rest => by
    intro hsz hwf hsep
    have hwfe : jsonWFElems (e :: es2) = true := hwf
    have hszelems : elemsSize (e :: es2) ≤ fuel := by
      simp [jsonSize] at hsz
      simp [elemsSize] at hsz ⊢
      omega
    have helems := parseElems_stringify (e :: es2) fuel [] rest hszelems
      (by simp) hwfe hsep
    obtain ⟨u, hu, _⟩ := stringifyElems_cons_eq e es2
    obtain ⟨c, t, hct, hw, hbr, _⟩ := stringify_head e
    have hhead : stringifyElems (e :: es2) ++ (']' :: rest) =
        c :: (t ++ (u ++ (']' :: rest))) := by
      rw [hu, hct]
      simp
    have harg : stringifyJson (Json.arr (e :: es2)) ++ rest =
        '[' :: (stringifyElems (e :: es2) ++ (']' :: rest)) := by
      simp [stringifyJson]
    rw [harg, parseValue]
    rw [skipJsonWs_cons _ _ (by decide)]
    dsimp only
    rw [if_neg (by decide), if_pos (by decide)]
    rw [hhead, skipJsonWs_cons _ _ hw]
    split
    · next r2 heq => exact absurd (List.cons.inj heq).1 hbr
    · rw [← hhead, helems]
      simp
  | Json.obj [], fuel + 1, rest => by
    intro _ _ _
    show parseValue (fuel + 1) ('{' :: ('}' :: rest)) = some (Json.obj [], rest)
    rw [parseValue]
    rw [skipJsonWs_cons _ _ (by decide)]
    simp [skipJsonWs_cons _ _ (by decide : isJsonWs '}' = false)]
  | Json.obj ((k, v) :: fs2), fuel + 1, rest => by
    intro hsz hwf hsep
    have hnd : nodupKeysB ((k, v) :: fs2) = true ∧
        jsonWFMembers ((k, v) :: fs2) = true := by
      have h0 : jsonWF (Json.obj ((k, v) :: fs2)) =
          (nodupKeysB ((k, v) :: fs2) && jsonWFMembers ((k, v) :: fs2)) := rfl
      rw [h0, Bool.and_eq_true] at hwf
      exact hwf
    have hszm : membersSize ((k, v) :: fs2) ≤ fuel := by
      simp [jsonSize] at hsz
      simp [membersSize] at hsz ⊢
      omega
    have hmem := parseMembers_stringify ((k, v) :: fs2) fuel [] rest hszm
      (by simp) hnd.1 hnd.2 hsep
    obtain ⟨u, hu⟩ := stringifyMembers_cons_ex k v fs2
    have hhead : stringifyMembers ((k, v) :: fs2) ++ ('}' :: rest) =
        '"' :: (u ++ ('}' :: rest)) := by
      rw [hu]
      simp
    have harg : stringifyJson (Json.obj ((k, v) :: fs2)) ++ rest =
        '{' :: (stringifyMembers ((k, v) :: fs2) ++ ('}' :: rest)) := by
      simp [stringifyJson]
    rw [harg, parseValue]
    rw [skipJsonWs_cons _ _ (by decide)]
    dsimp only
    rw [if_pos (by decide)]
    rw [hhead, skipJsonWs_cons _ _ (by decide)]
    split
    · next r2 heq => exact absurd (List.cons.inj heq).1 (by decide)
    · rw [← hhead, hmem]
      simp

theorem parseElems_stringify : ∀ (es : List Json) (fuel : Nat) (acc : List Json)
    (rest : List Char),
    elemsSize es ≤ fuel → es ≠ [] → jsonWFElems es = true → sepHead rest →
    parseElems fuel acc (stringifyElems es ++ (']' :: rest)) = some (acc ++ es, rest)
  | es, 0, acc, rest => by
    intro hsz hne _ _
    cases es with
    | nil => exact absurd rfl hne
    | cons e es2 =>
      simp [elemsSize] at hsz
  | es, fuel + 1, acc, rest => by
    intro hsz hne hwf hsep
    cases es with
    | nil => exact absurd rfl hne
    | cons e es2 =>
      have hwf2 : jsonWF e = true ∧ jsonWFElems es2 = true := by
        have h0 : jsonWFElems (e :: es2) = (jsonWF e && jsonWFElems es2) := rfl
        rw [h0, Bool.and_eq_true] at hwf
        exact hwf
      cases es2 with
      | nil =>
        have hv := parseValue_stringify e fuel (']' :: rest)
          (by simp [elemsSize] at hsz; omega) hwf2.1
          (fun c hc => Or.inr (Or.inr (Option.some.inj hc).symm))
        have harg : stringifyElems [e] ++ (']' :: rest) =
            stringifyJson e ++ (']' :: rest) := by
          simp [stringifyElems]
        rw [harg, parseElems, hv]
        simp [skipJsonWs_cons, isJsonWs]
      | cons e2 es3 =>
        have hsz2 : jsonSize e + elemsSize (e2 :: es3) ≤ fuel := by
          simp [elemsSize] at hsz ⊢
          omega
        have hv := parseValue_stringify e fuel
          (',' :: (stringifyElems (e2 :: es3) ++ (']' :: rest)))
          (by omega)
          hwf2.1 (fun c hc => Or.inl (Option.some.inj hc).symm)
        have hrec := parseElems_stringify (e2 :: es3) fuel (acc ++ [e]) rest
          (by omega) (by simp) hwf2.2 hsep
        have harg : stringifyElems (e :: e2 :: es3) ++ (']' :: rest) =
            stringifyJson e ++ (',' :: (stringifyElems (e2 :: es3) ++ (']' :: rest))) := by
          simp [stringifyElems]
        rw [harg, parseElems]
        simp [skipJsonWs_cons, isJsonWs, hv, hrec]

theorem parseMembers_stringify : ∀ (fs : List (String × Json)) (fuel : Nat)
    (acc : List (String × Json)) (rest : List Char),
    membersSize fs ≤ fuel → fs ≠ [] → nodupKeysB (acc ++ fs) = true →
    jsonWFMembers fs = true → sepHead rest →
    parseMembers fuel acc (stringifyMembers fs ++ ('}' :: rest)) =
      some (acc ++ fs, rest)
  | fs, 0, acc, rest => by
    intro hsz hne _ _ _
    cases fs with
    | nil => exact absurd rfl hne
    | cons p fs2 =>
      obtain ⟨k, v⟩ := p
      simp [membersSize] at hsz
  | fs, fuel + 1, acc, rest => by
    intro hsz hne hnodup hwf hsep
    cases fs with
    | nil => exact absurd rfl hne
    | cons p fs2 =>
      obtain ⟨k, v⟩ := p
      have hwf2 : jsonWF v = true ∧ jsonWFMembers fs2 = true := by
        have h0 : jsonWFMembers ((k, v) :: fs2) = (jsonWF v && jsonWFMembers fs2) := rfl
        rw [h0, Bool.and_eq_true] at hwf
        exact hwf
      have hanyacc : acc.any (fun p => p.1 == k) = false :=
        nodupKeysB_head_not_mem acc k v fs2 hnodup
      have hins : insertField acc ⟨k.data⟩ v = acc ++ [(k, v)] :=
        insertField_of_not_mem acc k v hanyacc
      cases fs2 with
      | nil =>
        have hv := parseValue_stringify v fuel ('}' :: rest)
          (by simp [membersSize] at hsz; omega) hwf2.1
          (fun c hc => Or.inr (Or.inl (Option.some.inj hc).symm))
        have harg : stringifyMembers [(k, v)] ++ ('}' :: rest) =
            '"' :: (escapeStr k.data ++
              ('"' :: (':' :: (stringifyJson v ++ ('}' :: rest))))) := by
          simp [stringifyMembers]
        rw [harg, parseMembers]
        rw [skipJsonWs_cons _ _ (by decide)]
        split
        · next r heq =>
          obtain rfl := ((List.cons.inj heq).2).symm
          rw [parseStringBody_escape k.data]
          simp [skipJsonWs_cons, isJsonWs, hv, hins]
        · next h => exact absurd rfl (h _)
      | cons p2 fs3 =>
        have hsz2 : jsonSize v + membersSize (p2 :: fs3) ≤ fuel := by
          simp [membersSize] at hsz ⊢
          omega
        have hv := parseValue_stringify v fuel
          (',' :: (stringifyMembers (p2 :: fs3) ++ ('}' :: rest)))
          (by omega) hwf2.1 (fun c hc => Or.inl (Option.some.inj hc).symm)
        have hnodup2 : nodupKeysB ((acc ++ [(k, v)]) ++ (p2 :: fs3)) = true := by
          rw [List.append_assoc]
          simpa using hnodup
        have hrec := parseMembers_stringify (p2 :: fs3) fuel (acc ++ [(k, v)]) rest
          (by omega) (by simp) hnodup2 hwf2.2 hsep
        have harg : stringifyMembers ((k, v) :: p2 :: fs3) ++ ('}' :: rest) =
            '"' :: (escapeStr k.data ++
              ('"' :: (':' :: (stringifyJson v ++
                (',' :: (stringifyMembers (p2 :: fs3) ++ ('}' :: rest))))))) := by
          simp [stringifyMembers]
        rw [harg, parseMembers]
        rw [skipJsonWs_cons _ _ (by decide)]
        split
        · next r heq =>
          obtain rfl := ((List.cons.inj heq).2).symm
          rw [parseStringBody_escape k.data]
          simp [skipJsonWs_cons, isJsonWs, hv, hins, hrec]
        · next h => exact absurd rfl (h _)

end

theorem parseJsonText_stringify (v : Json) (hwf : jsonWF v = true) :
    parseJsonText (stringifyJson v) = some v := by
  have hv := parseValue_stringify v ((stringifyJson v).length + 1) []
    (le_trans (jsonSize_le v) (Nat.le_succ _)) hwf
    (fun c hc => absurd hc (by simp))
  rw [List.append_nil] at hv
  unfold parseJsonText
  rw [hv]
  rfl

/-- C9: a template value with runtime-representable objects (pairwise
distinct keys) that passes the Template Validator with no errors,
serialized by JSON.stringify and re-parsed by JSON.parse, yields a
value that passes the Template Validator again with the identical
warnings sequence (indeed the identical value). -/
theorem C9_roundtrip (v : Json) (hwf : jsonWF v = true)
    (hok : (validateTemplateStructure v).errors = []) :
    ∃ w, parseJsonText (stringifyJson v) = some w ∧
      (validateTemplateStructure w).errors = [] ∧
      (validateTemplateStructure w).warnings = (validateTemplateStructure v).warnings :=
  ⟨v, parseJsonText_stringify v hwf, hok, rfl⟩

/-- Witness for C9 at a concrete validated template. -/
theorem C9_roundtrip_witness :
    jsonWF (Json.obj [("title", Json.str "T"), ("sections", Json.arr []),
      ("properties", Json.arr [])]) = true ∧
    (validateTemplateStructure (Json.obj [("title", Json.str "T"),
      ("sections", Json.arr []), ("properties", Json.arr [])])).errors = [] ∧
    ∃ w, parseJsonText (stringifyJson (Json.obj [("title", Json.str "T"),
        ("sections", Json.arr []), ("properties", Json.arr [])])) = some w ∧
      (validateTemplateStructure w).errors = [] ∧
      (validateTemplateStructure w).warnings =
        (validateTemplateStructure (Json.obj [("title", Json.str "T"),
          ("sections", Json.arr []), ("properties", Json.arr [])])).warnings :=
  ⟨rfl, rfl, C9_roundtrip _ rfl rfl⟩
